import Mathlib

/-!
Shallow embedding of the YourGrokipedia Flask application
(`app/utils/url_parser.py`, `app/routes/main.py`, `app/services/*.py`)
together with the parts of CPython's standard library the code relies on
(`urllib.parse` of CPython 3.12, `str` methods, `int()` parsing).

Python strings are modelled as `List Char` (sequences of Unicode scalar
values; Python strings containing lone surrogates are outside the model).
Machine-level caveats of the model are noted next to each definition.
External collaborators (the Grokipedia SDK, HTTP services, LLM providers)
are modelled as oracle parameters, and exceptions as `Except`.
-/

namespace Grokipedia

/-! ## Character classes (ASCII) -/

def isAsciiChar (c : Char) : Bool := c.toNat < 128

/-- `0`-`9` (code points 48-57). -/
def isAsciiDigit (c : Char) : Bool := 48 ≤ c.toNat ∧ c.toNat ≤ 57

/-- `a`-`z` (97-122) or `A`-`Z` (65-90). -/
def isAsciiAlpha (c : Char) : Bool :=
  (97 ≤ c.toNat ∧ c.toNat ≤ 122) ∨ (65 ≤ c.toNat ∧ c.toNat ≤ 90)

def isAsciiAlnum (c : Char) : Bool := isAsciiAlpha c || isAsciiDigit c

/-- Hexadecimal digit, either case (`string.hexdigits`). -/
def isHexDigitChar (c : Char) : Bool :=
  isAsciiDigit c || (97 ≤ c.toNat ∧ c.toNat ≤ 102) || (65 ≤ c.toNat ∧ c.toNat ≤ 70)

def hexVal (c : Char) : Nat :=
  if 48 ≤ c.toNat ∧ c.toNat ≤ 57 then c.toNat - 48
  else if 97 ≤ c.toNat ∧ c.toNat ≤ 102 then c.toNat - 97 + 10
  else c.toNat - 65 + 10

/-- Upper-case hexadecimal digit for `n < 16` (as produced by CPython's
`quote`, which uses `'%%%02X'`). -/
def hexChar (n : Nat) : Char :=
  if n < 10 then Char.ofNat (48 + n) else Char.ofNat (65 + n - 10)

/-- ASCII lower-casing of a single character.  Python's `str.lower` also
lowers non-ASCII letters; all strings compared against in the embedded code
are ASCII, so only the ASCII action matters and non-ASCII characters are
kept unchanged. -/
def asciiLowerChar (c : Char) : Char :=
  if 65 ≤ c.toNat ∧ c.toNat ≤ 90 then Char.ofNat (c.toNat + 32) else c

def asciiLower (l : List Char) : List Char := l.map asciiLowerChar

/-- Whitespace for Python's `str.strip()` / `int()` (ASCII part: space,
tab, LF, CR, VT, FF; Unicode spaces are not modelled, no embedded string
contains them). -/
def isPySpace (c : Char) : Bool :=
  c = ' ' ∨ c = '\t' ∨ c = '\n' ∨ c = '\r' ∨ c.toNat = 11 ∨ c.toNat = 12

/-! ## Python string operations over `List Char` -/

def pyLStrip (l : List Char) : List Char := l.dropWhile isPySpace

def pyRStrip (l : List Char) : List Char := (l.reverse.dropWhile isPySpace).reverse

def pyStrip (l : List Char) : List Char := pyRStrip (pyLStrip l)

/-- `str.strip(ch)` for a single-character argument (used as `.strip('/')`). -/
def pyStripChar (ch : Char) (l : List Char) : List Char :=
  ((l.dropWhile (· = ch)).reverse.dropWhile (· = ch)).reverse

/-- First component of `s.split(sep, 1)` together with the rest, for a
one-character separator; `none` when the separator does not occur. -/
def splitOnFirst (sep : Char) : List Char → Option (List Char × List Char)
  | [] => none
  | c :: t =>
    if c = sep then some ([], t)
    else match splitOnFirst sep t with
      | some (a, b) => some (c :: a, b)
      | none => none

/-- Python `s.split(sep)` for a one-character separator: splits at every
occurrence and keeps empty pieces (`"a::b".split(':') == ['a','','b']`). -/
def splitAll (sep : Char) : List Char → List (List Char)
  | [] => [[]]
  | c :: t =>
    let r := splitAll sep t
    if c = sep then [] :: r
    else match r with
      | h :: t2 => (c :: h) :: t2
      | [] => [[c]]

/-- Index of the first occurrence of the substring `pat` in `hay`
(Python `hay.find(pat)` when viewed through `Option`). -/
def firstOccIdx (hay pat : List Char) : Option Nat :=
  if pat.isPrefixOf hay then some 0
  else match hay with
    | [] => none
    | _ :: t => (firstOccIdx t pat).map (· + 1)

/-- Python's substring containment test `pat in hay`. -/
def containsSub (hay pat : List Char) : Bool := (firstOccIdx hay pat).isSome

/-- `hay.split(pat, 1)[-1]`: the suffix after the first occurrence of
`pat`, or `hay` itself when `pat` does not occur. -/
def splitOnceLast (hay pat : List Char) : List Char :=
  match firstOccIdx hay pat with
  | some i => hay.drop (i + pat.length)
  | none => hay

/-- Index of the last occurrence of a character (Python `s.rfind(c)`). -/
def lastIdxOf (c : Char) : List Char → Option Nat
  | [] => none
  | h :: t =>
    match lastIdxOf c t with
    | some i => some (i + 1)
    | none => if h = c then some 0 else none

/-- Fuel-driven worker for `splitAllSub` (each step removes one occurrence
of the pattern, so `hay.length` steps of fuel always suffice for a
non-empty pattern). -/
def splitAllSubAux : Nat → List Char → List Char → List (List Char)
  | 0, hay, _ => [hay]
  | fuel + 1, hay, pat =>
    match firstOccIdx hay pat with
    | some i => hay.take i :: splitAllSubAux fuel (hay.drop (i + pat.length)) pat
    | none => [hay]

/-- Python `hay.split(pat)` for a non-empty string pattern (Python raises
on an empty separator; the embedded code only splits on `"/page/"`). -/
def splitAllSub (hay pat : List Char) : List (List Char) :=
  splitAllSubAux (hay.length + 1) hay pat

/-- `hay.split(pat)[-1]`: the suffix after the LAST occurrence of `pat`
(used by `fetch_grokipedia_article`, which splits without a maxsplit). -/
def afterLastSub (hay pat : List Char) : List Char :=
  (splitAllSub hay pat).getLastD hay

/-! ## UTF-8 (CPython encodes to UTF-8 inside `quote` and decodes with
`errors='replace'` inside `unquote`) -/

/-- UTF-8 encoding of a single Unicode scalar value as its byte list. -/
def utf8EncodeChar (c : Char) : List Nat :=
  let n := c.toNat
  if n < 0x80 then [n]
  else if n < 0x800 then [0xC0 + n / 0x40, 0x80 + n % 0x40]
  else if n < 0x10000 then
    [0xE0 + n / 0x1000, 0x80 + (n / 0x40) % 0x40, 0x80 + n % 0x40]
  else
    [0xF0 + n / 0x40000, 0x80 + (n / 0x1000) % 0x40, 0x80 + (n / 0x40) % 0x40,
     0x80 + n % 0x40]

def utf8Encode (l : List Char) : List Nat := l.flatMap utf8EncodeChar

/-- U+FFFD, produced by `errors='replace'`. -/
def replChar : Char := Char.ofNat 0xFFFD

/-- Lower bound for the second byte of a three-byte sequence (rejects
overlong encodings after lead `E0`). -/
def utf8Lo3 (b0 : Nat) : Nat := if b0 = 0xE0 then 0xA0 else 0x80

/-- Upper bound (exclusive) for the second byte of a three-byte sequence
(rejects surrogates after lead `ED`). -/
def utf8Hi3 (b0 : Nat) : Nat := if b0 = 0xED then 0xA0 else 0xC0

/-- Lower bound for the second byte of a four-byte sequence (rejects
overlong encodings after lead `F0`). -/
def utf8Lo4 (b0 : Nat) : Nat := if b0 = 0xF0 then 0x90 else 0x80

/-- Upper bound (exclusive) for the second byte of a four-byte sequence
(rejects values above U+10FFFF after lead `F4`). -/
def utf8Hi4 (b0 : Nat) : Nat := if b0 = 0xF4 then 0x90 else 0xC0

/-- Fuel-driven worker for `utf8DecodeReplace` (each step consumes at
least one byte and one unit of fuel, so `l.length + 1` fuel suffices). -/
def utf8DecodeAux : Nat → List Nat → List Char
  | 0, _ => []
  | _ + 1, [] => []
  | fuel + 1, b0 :: rest =>
    if b0 < 0x80 then Char.ofNat b0 :: utf8DecodeAux fuel rest
    else if b0 < 0xC2 then replChar :: utf8DecodeAux fuel rest
    else
      match rest with
      | [] => [replChar]
      | b1 :: r1 =>
        if b0 < 0xE0 then
          if 0x80 ≤ b1 ∧ b1 < 0xC0 then
            Char.ofNat ((b0 - 0xC0) * 0x40 + (b1 - 0x80)) :: utf8DecodeAux fuel r1
          else replChar :: utf8DecodeAux fuel (b1 :: r1)
        else if b0 < 0xF0 then
          if utf8Lo3 b0 ≤ b1 ∧ b1 < utf8Hi3 b0 then
            match r1 with
            | [] => [replChar]
            | b2 :: r2 =>
              if 0x80 ≤ b2 ∧ b2 < 0xC0 then
                Char.ofNat ((b0 - 0xE0) * 0x1000 + (b1 - 0x80) * 0x40 + (b2 - 0x80)) ::
                  utf8DecodeAux fuel r2
              else replChar :: utf8DecodeAux fuel (b2 :: r2)
          else replChar :: utf8DecodeAux fuel (b1 :: r1)
        else if b0 < 0xF5 then
          if utf8Lo4 b0 ≤ b1 ∧ b1 < utf8Hi4 b0 then
            match r1 with
            | [] => [replChar]
            | b2 :: r2 =>
              if 0x80 ≤ b2 ∧ b2 < 0xC0 then
                match r2 with
                | [] => [replChar]
                | b3 :: r3 =>
                  if 0x80 ≤ b3 ∧ b3 < 0xC0 then
                    Char.ofNat ((b0 - 0xF0) * 0x40000 + (b1 - 0x80) * 0x1000 +
                      (b2 - 0x80) * 0x40 + (b3 - 0x80)) :: utf8DecodeAux fuel r3
                  else replChar :: utf8DecodeAux fuel (b3 :: r3)
              else replChar :: utf8DecodeAux fuel (b2 :: r2)
          else replChar :: utf8DecodeAux fuel (b1 :: r1)
        else replChar :: utf8DecodeAux fuel rest

/-- UTF-8 decoding with `errors='replace'`: ill-formed input produces
U+FFFD for each maximal ill-formed subpart (the Unicode-recommended
behaviour CPython implements).  Valid sequences decode exactly. -/
def utf8DecodeReplace (l : List Nat) : List Char := utf8DecodeAux (l.length + 1) l

/-! ## Percent-encoding: `urllib.parse.quote` / `unquote` -/

/-- The byte-safety set of `quote(s, safe='-_')` and of `quote(s, safe='')`:
CPython always keeps ASCII letters, digits and `_.-~`; the two safe-set
arguments used by the repository add nothing new. -/
def isQuoteSafe (c : Char) : Bool :=
  isAsciiAlnum c || c = '_' || c = '.' || c = '-' || c = '~'

/-- `%XX` escape (upper-case) for one byte. -/
def pctEncodeByte (b : Nat) : List Char := ['%', hexChar (b / 16), hexChar (b % 16)]

/-- `urllib.parse.quote(s, safe='-_')` (also `safe=''`): UTF-8-encode the
string and escape every byte outside the safe set. -/
def pyQuote (l : List Char) : List Char :=
  l.flatMap fun c =>
    if isQuoteSafe c then [c] else (utf8EncodeChar c).flatMap pctEncodeByte

/-- Fuel-driven worker for `pctDecodeBytes` (each step consumes at least
one character and one unit of fuel, so `l.length + 1` fuel suffices). -/
def pctAux : Nat → List Char → List Nat
  | 0, _ => []
  | _ + 1, [] => []
  | fuel + 1, c :: t =>
    if c = '%' then
      match t with
      | a :: b :: t2 =>
        if isHexDigitChar a ∧ isHexDigitChar b then
          (16 * hexVal a + hexVal b) :: pctAux fuel t2
        else '%'.toNat :: pctAux fuel (a :: b :: t2)
      | other => '%'.toNat :: pctAux fuel other
    else c.toNat :: pctAux fuel t

/-- `urllib.parse.unquote_to_bytes` on an ASCII chunk: each `%XX` with two
hex digits becomes the byte `XX`; a `%` not followed by two hex digits is
kept literally; other characters contribute their code point (ASCII). -/
def pctDecodeBytes (l : List Char) : List Nat := pctAux (l.length + 1) l

/-- Fuel-driven worker for `unquoteList`: each step consumes at least one
character, so `l.length + 1` fuel always suffices. -/
def unquoteAux : Nat → List Char → List Char
  | 0, _ => []
  | _ + 1, [] => []
  | fuel + 1, c :: t =>
    if isAsciiChar c then
      utf8DecodeReplace (pctDecodeBytes ((c :: t).takeWhile isAsciiChar)) ++
        unquoteAux fuel ((c :: t).dropWhile isAsciiChar)
    else c :: unquoteAux fuel t

/-- `urllib.parse.unquote(s)` (encoding `utf-8`, errors `replace`):
maximal ASCII runs are percent-decoded to bytes and UTF-8-decoded with
replacement; non-ASCII characters pass through unchanged (CPython splits
the input on ASCII runs with `_asciire`). -/
def unquoteList (l : List Char) : List Char := unquoteAux (l.length + 1) l

/-! ## Python `int()` parsing (for the search limit and `Retry-After`) -/

/-- Digits-with-underscores grammar of a Python integer literal body:
groups of ASCII digits separated by single underscores (`int('1_0') = 10`,
no leading/trailing/double underscore).  Returns the value.  Non-ASCII
decimal digits (which CPython also accepts) are not modelled; no embedded
comparison depends on them. -/
def pyDigits : List Char → Option Nat
  | [] => none
  | c :: t =>
    if isAsciiDigit c then pyDigitsAfter (c.toNat - '0'.toNat) t else none
where
  pyDigitsAfter (acc : Nat) : List Char → Option Nat
    | [] => some acc
    | c :: t =>
      if isAsciiDigit c then pyDigitsAfter (acc * 10 + (c.toNat - '0'.toNat)) t
      else if c = '_' then
        match t with
        | d :: t2 =>
          if isAsciiDigit d then pyDigitsAfter (acc * 10 + (d.toNat - '0'.toNat)) t2
          else none
        | [] => none
      else none

/-- `int(s)` for a Python `str`: strip whitespace, optional single sign,
then the digit grammar; `none` models `ValueError`. -/
def pyParseInt (s : List Char) : Option Int :=
  let t := pyStrip s
  match t with
  | '+' :: r => (pyDigits r).map fun n => (n : Int)
  | '-' :: r => (pyDigits r).map fun n => -(n : Int)
  | r => (pyDigits r).map fun n => (n : Int)

/-! ## `urllib.parse` (CPython 3.12) -/

/-- Exceptions: the only exception class the modelled library code raises
is `ValueError` (from `urlsplit`'s bracketed-host validation). -/
inductive PyErr
  | valueError
deriving DecidableEq, Repr

instance {α β : Type} [DecidableEq α] [DecidableEq β] : DecidableEq (Except α β) :=
  fun a b =>
    match a, b with
    | .ok x, .ok y => if h : x = y then .isTrue (by rw [h]) else .isFalse (by simp [h])
    | .error x, .error y => if h : x = y then .isTrue (by rw [h]) else .isFalse (by simp [h])
    | .ok _, .error _ => .isFalse (by simp)
    | .error _, .ok _ => .isFalse (by simp)

/-- No leading zero in a decimal octet (except the octet `"0"` itself). -/
def noLeadingZero : List Char → Bool
  | '0' :: _ :: _ => false
  | _ => true

/-- One octet of a dotted-quad IPv4 address (`ipaddress._parse_octet`):
1-3 ASCII digits, no leading zero except `"0"` itself, value ≤ 255. -/
def ipv4OctetOk (s : List Char) : Bool :=
  !s.isEmpty && decide (s.length ≤ 3) && s.all isAsciiDigit && noLeadingZero s &&
    decide (s.foldl (fun a c => a * 10 + (c.toNat - '0'.toNat)) 0 ≤ 255)

/-- `ipaddress.IPv4Address` parsing succeeds. -/
def isIPv4 (s : List Char) : Bool :=
  let parts := splitAll '.' s
  parts.length = 4 ∧ parts.all ipv4OctetOk

/-- One hextet of an IPv6 address: 1-4 hex digits. -/
def hextetOk (s : List Char) : Bool := s ≠ [] ∧ s.length ≤ 4 ∧ s.all isHexDigitChar

/-- `ipaddress.IPv6Address._ip_int_from_string` succeeds (validation only;
the numeric value is irrelevant to the embedded code). -/
def isIPv6Core (addr : List Char) : Bool :=
  let parts0 := splitAll ':' addr
  if parts0.length < 3 then false
  else
    -- an embedded trailing IPv4 part is replaced by two synthetic hextets
    let lastPart := parts0.getLastD []
    match if '.' ∈ lastPart then
            if isIPv4 lastPart then some (parts0.dropLast ++ [['0'], ['0']]) else none
          else some parts0 with
    | none => false
    | some parts =>
      if 9 < parts.length then false
      else
        let inner := (parts.drop 1).dropLast
        match inner.findIdx? (· = []) with
        | some j =>
          let skipIdx := j + 1
          if (inner.drop (j + 1)).any (· = []) then false
          else
            let hi0 := skipIdx
            let lo0 := parts.length - skipIdx - 1
            let headEmpty := parts.headD ['x'] = ([] : List Char)
            let lastEmpty := parts.getLastD ['x'] = ([] : List Char)
            if headEmpty ∧ hi0 - 1 ≠ 0 then false
            else if lastEmpty ∧ lo0 - 1 ≠ 0 then false
            else
              let hi := if headEmpty then hi0 - 1 else hi0
              let lo := if lastEmpty then lo0 - 1 else lo0
              if 8 < hi + lo then false
              else ((parts.take hi).all hextetOk) ∧
                   (((parts.drop (parts.length - lo))).all hextetOk)
        | none =>
          parts.length = 8 ∧ parts.all hextetOk

/-- `ipaddress.IPv6Address` parsing succeeds, including an optional
`%scope_id` (non-empty, no `%`, no further validation). -/
def isIPv6 (s : List Char) : Bool :=
  if '/' ∈ s then false
  else match splitOnFirst '%' s with
    | none => isIPv6Core s
    | some (addr, scope) => scope ≠ [] ∧ ¬ ('%' ∈ scope) ∧ isIPv6Core addr

/-- Tail of an IPvFuture literal after the hex digits: a dot followed by
at least one character, none of them a newline (`re` dot with DOTALL off). -/
def ipvFutureTail : List Char → Bool
  | '.' :: tail => !tail.isEmpty && tail.all (· ≠ '\n')
  | _ => false

/-- `urllib.parse._check_bracketed_host` (CPython 3.11+): a bracketed host
must be an IPvFuture literal (regex `v[a-fA-F0-9]+\..+`, fully anchored)
or an IPv6 address; an IPv4 address or anything else raises `ValueError`. -/
def checkBracketedHost (h : List Char) : Except PyErr Unit :=
  match h with
  | 'v' :: rest =>
    let hexRun := rest.takeWhile isHexDigitChar
    let afterHex := rest.dropWhile isHexDigitChar
    if hexRun ≠ [] ∧ ipvFutureTail afterHex then .ok () else .error .valueError
  | _ => if isIPv4 h then .error .valueError
         else if isIPv6 h then .ok ()
         else .error .valueError

/-- Result of `urlsplit` (the `params` component of `urlparse` is merged
into `path` here; `pyUrlparse` removes it the way `_splitparams` does). -/
structure UrlSplitResult where
  scheme : List Char
  netloc : List Char
  path : List Char
  query : List Char
  fragment : List Char
deriving DecidableEq, Repr

/-- Characters allowed in a scheme after the first (letter) character. -/
def isSchemeChar (c : Char) : Bool := isAsciiAlnum c || c = '+' || c = '-' || c = '.'

/-- First character exists and is an ASCII letter (`url[0].isascii() and
url[0].isalpha()` with `i > 0`). -/
def headIsAlpha : List Char → Bool
  | c :: _ => isAsciiAlpha c
  | [] => false

/-- The WHATWG-inspired input sanitising CPython 3.12 applies first:
strip leading C0 controls and spaces, then delete every tab, CR and LF. -/
def sanitizeUrl (l : List Char) : List Char :=
  (l.dropWhile fun c => c.toNat ≤ 0x20).filter fun c => ¬ (c = '\t' ∨ c = '\r' ∨ c = '\n')

/-- The bracketed host `netloc.partition('[')[2].partition(']')[0]`. -/
def bracketedHostOf (netloc : List Char) : List Char :=
  (splitOnFirst ']' ((splitOnFirst '[' netloc).elim ([] : List Char) Prod.snd)).elim
    ((splitOnFirst '[' netloc).elim ([] : List Char) Prod.snd) Prod.fst

/-- `urlsplit` stage 5: split the query off at the first `?`. -/
def urlsplitQuery (scheme netloc u frag : List Char) : Except PyErr UrlSplitResult :=
  match splitOnFirst '?' u with
  | some (p, q) => .ok ⟨scheme, netloc, p, q, frag⟩
  | none => .ok ⟨scheme, netloc, u, [], frag⟩

/-- `urlsplit` stage 4: split the fragment off at the first `#`. -/
def urlsplitFragment (scheme netloc url3 : List Char) : Except PyErr UrlSplitResult :=
  match splitOnFirst '#' url3 with
  | some (u, frag) => urlsplitQuery scheme netloc u frag
  | none => urlsplitQuery scheme netloc url3 []

/-- `urlsplit` stage 3: validate brackets in the authority (the only
raising step of the parser). -/
def urlsplitBrackets (scheme netloc url3 : List Char) : Except PyErr UrlSplitResult :=
  if ('[' ∈ netloc ∧ ¬ (']' ∈ netloc)) ∨ (']' ∈ netloc ∧ ¬ ('[' ∈ netloc)) then
    .error .valueError
  else if '[' ∈ netloc ∧ ']' ∈ netloc then
    match checkBracketedHost (bracketedHostOf netloc) with
    | .error e => .error e
    | .ok _ => urlsplitFragment scheme netloc url3
  else urlsplitFragment scheme netloc url3

/-- `urlsplit` stage 2: split the authority off after `//`. -/
def urlsplitNetloc (scheme url2 : List Char) : Except PyErr UrlSplitResult :=
  if "//".data.isPrefixOf url2 then
    urlsplitBrackets scheme
      ((url2.drop 2).takeWhile fun c => ¬ (c = '/' ∨ c = '?' ∨ c = '#'))
      ((url2.drop 2).dropWhile fun c => ¬ (c = '/' ∨ c = '?' ∨ c = '#'))
  else urlsplitBrackets scheme [] url2

/-- `urlsplit` stage 1: split a valid scheme off at the first `:`. -/
def urlsplitScheme (url1 : List Char) : Except PyErr UrlSplitResult :=
  match splitOnFirst ':' url1 with
  | some (before, after) =>
    if before ≠ [] ∧ headIsAlpha before ∧ before.all isSchemeChar
    then urlsplitNetloc (asciiLower before) after
    else urlsplitNetloc [] url1
  | none => urlsplitNetloc [] url1

/-- `urllib.parse.urlsplit` (CPython 3.12), staged to mirror the
sequential splits of the source.  The NFKC-based `_checknetloc` raises
only for non-ASCII authorities containing compatibility characters that
normalise to `/?#@:`; it needs the Unicode NFKC tables and is modelled as
accepting.  Theorems whose truth depends on the absence of exceptions
therefore restrict inputs to ASCII. -/
def pyUrlsplit (url0 : List Char) : Except PyErr UrlSplitResult :=
  urlsplitScheme (sanitizeUrl url0)

/-- `urllib.parse._splitparams`: remove the `;params` suffix of the last
path segment; returns the path without params (the embedded code never
reads the params). -/
def splitParams (path : List Char) : List Char :=
  if ';' ∈ path then
    if '/' ∈ path then
      match lastIdxOf '/' path with
      | some j =>
        match firstOccIdx (path.drop j) [';'] with
        | some k => path.take (j + k)
        | none => path
      | none => path
    else
      match firstOccIdx path [';'] with
      | some k => path.take k
      | none => path
  else path

/-- `urllib.parse.urlparse` as used by the repository: `urlsplit` plus
params removal from the path. -/
def pyUrlparse (url : List Char) : Except PyErr UrlSplitResult :=
  (pyUrlsplit url).map fun r => { r with path := splitParams r.path }

/-- The `title` lookup `parse_qs(query).get('title', [None])[0]` used by
`extract_article_title`: first `name=value` pair (separator `&`) whose
`+`-and-percent-decoded name is `title` and whose value is non-empty
(`keep_blank_values` is false). -/
def parseQsTitle (query : List Char) : Option (List Char) :=
  let decode := fun (l : List Char) => unquoteList (l.map fun c => if c = '+' then ' ' else c)
  let pairs := (splitAll '&' query).filterMap fun piece =>
    match splitOnFirst '=' piece with
    | some (n, v) => if v = [] then none else some (decode n, decode v)
    | none => none
  (pairs.find? fun p => p.1 = "title".data).map Prod.snd

/-! ## `app/utils/url_parser.py` -/

/-- The two encyclopedia sources. -/
inductive Source
  | grokipedia
  | wikipedia
deriving DecidableEq, Repr

/-- The host string `detect_source` classifies: the lower-cased netloc of
the parsed URL, or the lower-cased raw input when `urlparse` raises
(`except Exception: host = url.lower()`). -/
def hostOf (url : String) : List Char :=
  match pyUrlparse url.data with
  | .ok r => asciiLower r.netloc
  | .error _ => asciiLower url.data

/-- `url_parser.detect_source`: suffix-classify the host.  The second
Wikipedia test (`m.wikipedia.org`) is kept although it is subsumed by the
first, mirroring the source. -/
def detect_source (url : String) : Option Source :=
  let host := hostOf url
  if "grokipedia.com".data.isSuffixOf host then some .grokipedia
  else if "wikipedia.org".data.isSuffixOf host || "m.wikipedia.org".data.isSuffixOf host then
    some .wikipedia
  else none

/-- `normalize_slug` inside `extract_article_title`: percent-decode, cut
at the first `#`, replace spaces by underscores, strip slashes at both
ends. -/
def normalizeSlug (s : List Char) : List Char :=
  pyStripChar '/'
    (((unquoteList s).takeWhile (· ≠ '#')).map fun c => if c = ' ' then '_' else c)

/-- `url_parser.extract_article_title`.  `urlparse` exceptions propagate
(the Python function has no handler), hence the `Except`. -/
def extract_article_title (url : String) : Except PyErr (Option String) :=
  match pyUrlparse url.data with
  | .error e => .error e
  | .ok r =>
    let host := asciiLower r.netloc
    let path := r.path
    let query := r.query
    if "grokipedia.com".data.isSuffixOf host then
      if containsSub path "/page/".data then
        .ok (some ⟨normalizeSlug (splitOnceLast path "/page/".data)⟩)
      else .ok none
    else if "wikipedia.org".data.isSuffixOf host || "m.wikipedia.org".data.isSuffixOf host then
      if containsSub path "/wiki/".data then
        .ok (some ⟨normalizeSlug (splitOnceLast path "/wiki/".data)⟩)
      else if containsSub query "title=".data then
        match parseQsTitle query with
        | some t => if t = [] then .ok none else .ok (some ⟨normalizeSlug t⟩)
        | none => .ok none
      else .ok none
    else .ok none

/-- `url_parser.convert_to_other_source`.  Exceptions of the inner
`extract_article_title` / `urlparse` calls propagate. -/
def convert_to_other_source (url : String) : Except PyErr (Option String) :=
  match extract_article_title url with
  | .error e => .error e
  | .ok none => .ok none
  | .ok (some title) =>
    if title = "" then .ok none
    else
      match pyUrlparse url.data with
      | .error e => .error e
      | .ok r =>
        let host := asciiLower r.netloc
        let safeTitle := pyQuote title.data
        if "grokipedia.com".data.isSuffixOf host then
          .ok (some ⟨"https://en.wikipedia.org/wiki/".data ++ safeTitle⟩)
        else if "wikipedia.org".data.isSuffixOf host ||
                "m.wikipedia.org".data.isSuffixOf host then
          .ok (some ⟨"https://grokipedia.com/page/".data ++ safeTitle⟩)
        else .ok none

/-! ### `resolve_local_slug_if_available`

The SDK (`grokipedia_sdk`, an external library) is modelled as an oracle:
each operation either returns a value or raises. -/

/-- Observable behaviour of the SDK for one resolution request. -/
structure SdkBehavior where
  /-- Value of `is_sdk_available()` (a module flag read; never raises). -/
  isAvailable : Bool
  /-- `get_sdk_client()`: `ok` means a client was constructed. -/
  getClient : Except PyErr Unit
  /-- `client.find_slug(raw)`: best match or `None`, or an exception. -/
  findSlug : Except PyErr (Option String)
  /-- `client.close()` may itself raise. -/
  close : Except PyErr Unit

/-- Resource events recorded while resolving (for the release obligation). -/
inductive SdkEvent
  | acquired
  | closed
deriving DecidableEq, Repr

/-- `url_parser.resolve_local_slug_if_available`: the outer `try/except
Exception` makes the function total; the inner `try/finally` runs
`client.close()` on every path after acquisition, and an exception raised
by `find_slug` or by `close` itself is swallowed into `None`.  The
`isinstance(raw, str)` test is vacuous in the typed model. -/
def resolve_local_slug_if_available (b : SdkBehavior) (raw : String) :
    Option String × List SdkEvent :=
  if raw = "" then (none, [])
  else if ¬ b.isAvailable then (none, [])
  else
    match b.getClient with
    | .error _ => (none, [])
    | .ok _ =>
      match b.findSlug with
      | .ok v =>
        match b.close with
        | .ok _ => (v, [.acquired, .closed])
        | .error _ => (none, [.acquired, .closed])
      | .error _ =>
        match b.close with
        | .ok _ => (none, [.acquired, .closed])
        | .error _ => (none, [.acquired, .closed])

/-! ## `app/routes/main.py` — `/search` -/

/-- The merge loop of `search_articles` (`main.py` lines 74-81): walk the
fuzzy results, appending a slug when it is not yet present and the list is
still below the limit.  The Python `seen` set always equals the set of
elements of `slugs`, so membership in the list models it exactly. -/
def mergeLoop (limit : Int) : List String → List String → List String
  | slugs, [] => slugs
  | slugs, f :: fs =>
    if f ∉ slugs ∧ (slugs.length : Int) < limit then
      mergeLoop limit (slugs ++ [f]) fs
    else
      mergeLoop limit slugs fs

/-- The exact-then-fuzzy step of `search_articles` (lines 71-81): fuzzy
search runs only when the exact results fall short of the limit. -/
def searchMerge (limit : Int) (ex fz : List String) : List String :=
  if (ex.length : Int) < limit then mergeLoop limit ex fz else ex

/-- `min(int(request.args.get('limit', 10)), 100)` with
`except (TypeError, ValueError): limit = 10`. -/
def effectiveLimit (limitParam : Option String) : Int :=
  match limitParam with
  | none => 10
  | some s =>
    match pyParseInt s.data with
    | some v => min v 100
    | none => 10

/-- SDK search operations used by `/search`, as total oracles. -/
structure SearchSdk where
  sdkAvailable : Bool
  /-- `get_cached_client()` returned a non-`None` client. -/
  clientOk : Bool
  /-- `client.list_available_articles(prefix=q, limit=l)` -/
  listAvailable : String → Int → List String
  /-- `client.search_slug(q, limit=l, fuzzy=False)` -/
  searchExact : String → Int → List String
  /-- `client.search_slug(q, limit=l, fuzzy=True)` -/
  searchFuzzy : String → Int → List String

/-- One `/search` response entry (`slug`, `title`, `url`). -/
structure SearchResult where
  slug : String
  title : String
  url : String
deriving DecidableEq, Repr

/-- A `/search` response: a result list (HTTP 200) or an error payload. -/
inductive SearchResponse
  | results (rs : List SearchResult)
  | errorResp (msg : String) (status : Nat)
deriving DecidableEq, Repr

/-- `search_articles` (`main.py` lines 34-92).  The slug-extraction call
on a URL-shaped query (line 52) runs outside every `try`, so its
`ValueError` propagates — hence the `Except`. -/
def search_articles (sdk : SearchSdk) (qParam limitParam : Option String) :
    Except PyErr SearchResponse :=
  let query0 := pyStrip (qParam.getD "").data
  let limit := effectiveLimit limitParam
  if query0 = [] then .ok (.results [])
  else
    match
      (match detect_source ⟨query0⟩ with
       | some _ =>
         match extract_article_title ⟨query0⟩ with
         | .error e => .error e
         | .ok (some slug) =>
           if slug ≠ "" then .ok (slug.data.map fun c => if c = '_' then ' ' else c)
           else .ok query0
         | .ok none => .ok query0
       | none => .ok query0 : Except PyErr (List Char)) with
    | .error e => .error e
    | .ok query =>
      if ¬ sdk.sdkAvailable then .ok (.errorResp "SDK not available" 500)
      else if ¬ sdk.clientOk then .ok (.errorResp "SDK client unavailable" 500)
      else
        let slugs :=
          if query.length ≤ 2 then
            sdk.listAvailable ⟨query.map fun c => if c = ' ' then '_' else c⟩ limit
          else
            searchMerge limit (sdk.searchExact ⟨query⟩ limit) (sdk.searchFuzzy ⟨query⟩ limit)
        .ok (.results (slugs.map fun slug =>
          { slug := slug
            title := ⟨slug.data.map fun c => if c = '_' then ' ' else c⟩
            url := ⟨"https://grokipedia.com/page/".data ++ pyQuote slug.data⟩ }))

/-! ## `app/routes/main.py` — `/compare` -/

/-- External collaborators of the `/compare` route, over an abstract
article-record type `α` (the route only moves the records around). -/
structure CompareDeps (α : Type) where
  /-- `resolve_local_slug_if_available` outcome (total: it never raises). -/
  resolveLocal : String → Option String
  fetchGrok : String → Option α
  scrapeWiki : String → Option α
  compareArticles : α → α → Option String
  genTldr : α → Option String
  genWikiSummary : α → Option String
  /-- `grokipedia_data['tldr'] = ...` -/
  attachTldr : α → String → α
  /-- `wikipedia_data['article_summary'] = ...` -/
  attachWikiSummary : α → String → α

/-- The JSON payload of a successful `/compare` response.  For
`comparisonError` the outer `Option` is key presence (the key is only
written in the some-article-missing branch) and the inner `Option` is the
`None`-vs-string value. -/
structure ComparePayload (α : Type) where
  grokipedia : Option α
  wikipedia : Option α
  grokipediaUrl : String
  wikipediaUrl : String
  comparison : Option String
  comparisonError : Option (Option String)

/-- A `/compare` response: 200 payload or error with status. -/
inductive CompareResponse (α : Type)
  | success (p : ComparePayload α)
  | failure (status : Nat) (msg : String)

/-- `' and '.join(missing) if missing else None` for the two fixed
messages (`main.py` lines 159-164). -/
def missingMessage {α : Type} (g w : Option α) : Option String :=
  let missing := (if g.isNone then ["Grokipedia article not found"] else []) ++
                 (if w.isNone then ["Wikipedia article not found"] else [])
  if missing = [] then none else some (String.intercalate " and " missing)

/-- Body of `/compare` after the source is known (`main.py` lines
117-166). -/
def compareCore {α : Type} (d : CompareDeps α) (articleUrl : String) (src : Source) :
    CompareResponse α :=
  match convert_to_other_source articleUrl with
  | .error _ => .failure 500 "Internal server error"
  | .ok none => .failure 400 "Could not extract article title from URL"
  | .ok (some otherUrl) =>
    let fetched :=
      match src with
      | .grokipedia => (d.fetchGrok articleUrl, d.scrapeWiki otherUrl, articleUrl, otherUrl)
      | .wikipedia => (d.fetchGrok otherUrl, d.scrapeWiki articleUrl, otherUrl, articleUrl)
    match fetched.1, fetched.2.1 with
    | some ga, some wa =>
      let comparison := d.compareArticles ga wa
      let ga2 := match d.genTldr ga with
        | some t => d.attachTldr ga t
        | none => ga
      let wa2 := match d.genWikiSummary wa with
        | some s => d.attachWikiSummary wa s
        | none => wa
      .success { grokipedia := some ga2, wikipedia := some wa2,
                 grokipediaUrl := fetched.2.2.1, wikipediaUrl := fetched.2.2.2,
                 comparison := comparison, comparisonError := none }
    | g, w =>
      .success { grokipedia := g, wikipedia := w,
                 grokipediaUrl := fetched.2.2.1, wikipediaUrl := fetched.2.2.2,
                 comparison := none, comparisonError := some (missingMessage g w) }

/-- The `/compare` route (`main.py` lines 95-170): empty input is a 400;
an unrecognised source is resolved through the local index or rejected;
then `compareCore`.  The route-level `except Exception` is the 500 path of
`compareCore`. -/
def compareRoute {α : Type} (d : CompareDeps α) (articleUrlParam : Option String) :
    CompareResponse α :=
  let url0 := pyStrip (articleUrlParam.getD "").data
  if url0 = [] then .failure 400 "Please provide an article URL"
  else
    match detect_source ⟨url0⟩ with
    | some src => compareCore d ⟨url0⟩ src
    | none =>
      match d.resolveLocal ⟨url0⟩ with
      | some slug =>
        compareCore d ⟨"https://grokipedia.com/page/".data ++ pyQuote slug.data⟩ .grokipedia
      | none =>
        .failure 400 "Invalid input. Provide a Grokipedia/Wikipedia URL or a recognizable article name."

/-! ## `app/services/edits_service.py` -/

/-- The two LLM providers of the fallback chain. -/
inductive Provider
  | xai
  | openrouter
deriving DecidableEq, Repr

/-- An HTTP chat-completion response as `generate_edit_suggestions`
inspects it: status code, optional `Retry-After` header and the
`choices[0].message.content` field (`none` when `choices` is empty or
carries no content; the list-of-parts content shape joins to a string the
same way and is folded into this field). -/
structure ChatResponse where
  status : Nat
  retryAfter : Option String
  content : Option String
deriving DecidableEq, Repr

/-- Configured API keys (`XAI_API_KEY`, `OPENROUTER_API_KEY`); only their
presence matters. -/
structure ProviderEnv where
  xaiKey : Bool
  openrouterKey : Bool
deriving DecidableEq, Repr

/-- Grokipedia article payload as the services read it. -/
structure GrokArticleData where
  fullText : Option String
  summary : Option String
  sections : Option (List String)
deriving DecidableEq, Repr

/-- `edits_service._build_article_body`: prefer a truthy `full_text`,
otherwise join the stripped summary and the stripped joined sections. -/
def buildArticleBody (d : GrokArticleData) : List Char :=
  match d.fullText with
  | some t =>
    if t.data ≠ [] then pyStrip t.data
    else joinSummarySections d
  | none => joinSummarySections d
where
  joinSummarySections (d : GrokArticleData) : List Char :=
    let summary := pyStrip ((d.summary.getD "").data)
    let sections := pyStrip (List.intercalate "\n\n".data (((d.sections.getD []).map String.data)))
    if summary = [] then sections
    else if sections = [] then summary
    else summary ++ "\n\n".data ++ sections

/-- How `generate_edit_suggestions` ends when it does not return text. -/
inductive EditsErr
  /-- `XAIRateLimitError` with the parsed `Retry-After` hint. -/
  | rateLimited (retryAfter : Option Int)
  /-- `RuntimeError` / `ValueError` (missing keys, empty article, empty
  or missing completion content). -/
  | runtimeOrValue
  /-- `response.raise_for_status()` on a non-429 error status. -/
  | httpStatus
deriving DecidableEq, Repr

/-- `retry_after_seconds` extraction (`edits_service.py` lines 165-171):
a falsy header gives `none`, else `int(...)` with `ValueError → None`. -/
def parseRetryAfter (h : Option String) : Option Int :=
  match h with
  | none => none
  | some s => if s.data = [] then none else pyParseInt s.data

/-- `edits_service.generate_edit_suggestions` (lines 98-191), with the
HTTP layer as an oracle `respond`.  Returns the outcome and the trace of
providers actually sent a request, in order.  Key shape: the first request
goes to xAI when `XAI_API_KEY` is set, else to OpenRouter; a non-200 first
response with BOTH keys set triggers one OpenRouter retry; only then is
the (final) response tested for status 429. -/
def generate_edit_suggestions (env : ProviderEnv) (respond : Provider → ChatResponse)
    (article : GrokArticleData) : Except EditsErr String × List Provider :=
  if ¬ env.xaiKey ∧ ¬ env.openrouterKey then (.error .runtimeOrValue, [])
  else
    let body := buildArticleBody article
    if body = [] then (.error .runtimeOrValue, [])
    else
      let first := if env.xaiKey then Provider.xai else Provider.openrouter
      let r1 := respond first
      let final :=
        if r1.status ≠ 200 ∧ env.xaiKey ∧ env.openrouterKey then
          (respond .openrouter, [first, Provider.openrouter])
        else (r1, [first])
      let resp := final.1
      let trace := final.2
      if resp.status = 429 then
        (.error (.rateLimited (parseRetryAfter resp.retryAfter)), trace)
      else if 400 ≤ resp.status ∧ resp.status < 600 then
        (.error .httpStatus, trace)
      else
        match resp.content with
        | none => (.error .runtimeOrValue, trace)
        | some c =>
          if c.data = [] then (.error .runtimeOrValue, trace)
          else (.ok ⟨pyStrip c.data⟩, trace)

/-! ## Title coercion (`comparison_service.py`, `biography_service.py`) -/

/-- `content.lstrip().startswith('#')` without the lstrip applied. -/
def startsWithHash : List Char → Bool
  | '#' :: _ => true
  | _ => false

/-- Title coercion of `generate_grokipedia_article`, xAI branch
(`comparison_service.py` lines 249-251):
`if title and content and not content.lstrip().startswith('#'): content =
f"# <title>\n\n<content>"` then `return content.strip() if content else
None`. -/
def coerceTitleXai (title content : List Char) : Option (List Char) :=
  if title ≠ [] ∧ content ≠ [] ∧ ¬ startsWithHash (pyLStrip content) then
    some (pyStrip ("# ".data ++ title ++ "\n\n".data ++ content))
  else if content ≠ [] then some (pyStrip content)
  else none

/-- Title coercion of `generate_grokipedia_article`, OpenRouter branch
(lines 334-337): the content is stripped first, then the heading is
prepended when missing, and returned without further stripping. -/
def coerceTitleOpenrouter (title rawContent : List Char) : List Char :=
  let content := pyStrip rawContent
  if title ≠ [] ∧ ¬ startsWithHash (pyLStrip content) then
    "# ".data ++ title ++ "\n\n".data ++ content
  else content

/-- Title coercion of `generate_biography` (`biography_service.py` lines
198-202): prepend when the heading is missing (no truthiness test on the
name here), then strip. -/
def coerceTitleBiography (name content : List Char) : Option (List Char) :=
  if content ≠ [] then
    some (pyStrip
      (if ¬ startsWithHash (pyLStrip content) then
        "# ".data ++ name ++ "\n\n".data ++ content
      else content))
  else none

/-! ## `app/services/article_fetcher.py` -/

/-- `re.sub(r'\\+([\[\]()]|\\)', r'\1', markdown)`: a maximal run of
backslashes followed by a bracket/paren collapses to that character; a
run of two or more backslashes otherwise collapses to a single backslash
(the final backslash of the run serves as the captured group); a lone
backslash before an ordinary character stays. -/
def unescapeAux : Nat → List Char → List Char
  | 0, _ => []
  | _ + 1, [] => []
  | fuel + 1, c0 :: rest =>
    if c0 = '\\' then
      match rest.dropWhile (· = '\\') with
      | c :: t =>
        if c = '[' ∨ c = ']' ∨ c = '(' ∨ c = ')' then c :: unescapeAux fuel t
        else '\\' :: unescapeAux fuel (c :: t)
      | [] => ['\\']
    else c0 :: unescapeAux fuel rest

def unescapeMd (l : List Char) : List Char := unescapeAux (l.length + 1) l

/-- Whitespace class of Python's `re` `\s` (ASCII part; the cleaned lines
contain no Unicode spaces). -/
def isReSpace (c : Char) : Bool :=
  c = ' ' ∨ c = '\t' ∨ c = '\n' ∨ c = '\r' ∨ c.toNat = 11 ∨ c.toNat = 12

/-- Fuel-driven worker for `collapseWs`. -/
def collapseWsAux : Nat → List Char → List Char
  | 0, _ => []
  | _ + 1, [] => []
  | fuel + 1, c :: t =>
    if isReSpace c then ' ' :: collapseWsAux fuel (t.dropWhile isReSpace)
    else c :: collapseWsAux fuel t

/-- `re.sub(r'\s+', ' ', s)`: collapse every whitespace run to one space. -/
def collapseWs (l : List Char) : List Char := collapseWsAux (l.length + 1) l

/-- `FOOTNOTE_DEFINITION_RE.match(stripped)`: regex `^\[\d+\]:\s*\S+`. -/
def isFootnoteDef (l : List Char) : Bool :=
  match l with
  | '[' :: rest =>
    let ds := rest.takeWhile isAsciiDigit
    let after := rest.dropWhile isAsciiDigit
    !ds.isEmpty &&
      (match after with
       | ']' :: ':' :: r2 => !(r2.dropWhile isReSpace).isEmpty
       | _ => false)
  | _ => false

/-- Word characters for the `\b` boundary in `^fact-checked by\b` (ASCII
part of `re` `\w`). -/
def isWordChar (c : Char) : Bool := isAsciiAlnum c || c = '_'

/-- `FACT_CHECK_LINE_RE.match(normalized)`: regex `^fact-checked by\b`
(applied to the already lower-cased line). -/
def isFactCheckLine (l : List Char) : Bool :=
  "fact-checked by".data.isPrefixOf l &&
    (match l.drop "fact-checked by".data.length with
     | [] => true
     | c :: _ => !isWordChar c)

/-- The UI-chrome line set `FIRECRAWL_CHROME_LINES`. -/
def chromeLines : List (List Char) :=
  ["search", "suggest article", "edits history", "edit history", "new search",
   "sign in", "log in", "login", "logout", "log out", "home", "menu"].map String.data

/-- The keyboard-shortcut line set `FIRECRAWL_SHORTCUT_LINES` (`⌘` is
U+2318). -/
def shortcutLines : List (List Char) :=
  ["cmd+k", "command+k", "command + k", "ctrl+k", "ctrl + k", "ctrl k", "cmd k",
   "\u2318k", "\u2318 k"].map String.data

/-- `str.splitlines()` restricted to the `\n`, `\r\n`, `\r` boundaries
that occur in the scraped markdown (Python also splits on half a dozen
rarer control characters); no trailing empty line. -/
def splitLinesAux : Nat → List Char → List (List Char)
  | 0, l => [l]
  | _, [] => []
  | fuel + 1, l =>
    let line := l.takeWhile fun c => ¬ (c = '\n' ∨ c = '\r')
    let rest := l.dropWhile fun c => ¬ (c = '\n' ∨ c = '\r')
    match rest with
    | '\r' :: '\n' :: t => line :: splitLinesAux fuel t
    | _ :: t => line :: splitLinesAux fuel t
    | [] => [line]

def splitLines (l : List Char) : List (List Char) := splitLinesAux (l.length + 1) l

/-- Line-filter loop of `clean_firecrawl_markdown` (lines 79-102); the
first argument is `blank_count`. -/
def cleanLines (titleNorm : List Char) : Nat → List (List Char) → List (List Char)
  | _, [] => []
  | blanks, raw :: rest =>
    let stripped := pyStrip raw
    if stripped = [] then
      if blanks + 1 ≤ 2 then [] :: cleanLines titleNorm (blanks + 1) rest
      else cleanLines titleNorm (blanks + 1) rest
    else
      let norm := asciiLower (collapseWs stripped)
      if norm ∈ chromeLines ∨ norm ∈ shortcutLines ∨ isFactCheckLine norm ∨
         isFootnoteDef stripped ∨
         (titleNorm ≠ [] ∧ norm = titleNorm ∧ ¬ startsWithHash stripped) then
        cleanLines titleNorm 0 rest
      else stripped :: cleanLines titleNorm 0 rest

/-- `article_fetcher.clean_firecrawl_markdown`. -/
def clean_firecrawl_markdown (markdown : List Char) (title : List Char) : List Char :=
  if markdown = [] then markdown
  else
    let md := unescapeMd markdown
    let titleNorm := asciiLower (pyStrip title)
    pyStrip (List.intercalate "\n".data (cleanLines titleNorm 0 (splitLines md)))

/-- Summary extraction in the Firecrawl branch of
`fetch_grokipedia_article` (lines 228-235): first stripped line that is
non-empty, is not a heading and is longer than 100 characters, cut to
500. -/
def extractFirecrawlSummary (md : List Char) : List Char :=
  go (splitAll '\n' md)
where
  go : List (List Char) → List Char
    | [] => []
    | ln :: rest =>
      let l := pyStrip ln
      if l ≠ [] ∧ ¬ startsWithHash l ∧ 100 < l.length then l.take 500
      else go rest

/-- `" | Grokipedia"` / `" - Grokipedia"` title-suffix cleanup (lines
220-223). -/
def cleanGrokTitle (t : List Char) : List Char :=
  if containsSub t " | Grokipedia".data then
    match firstOccIdx t " | Grokipedia".data with
    | some i => pyStrip (t.take i)
    | none => t
  else if containsSub t " - Grokipedia".data then
    match firstOccIdx t " - Grokipedia".data with
    | some i => pyStrip (t.take i)
    | none => t
  else t

/-- Normalised article record produced by the content acquirers:
`sections` is the bounded table of contents / section-title list. -/
structure ArticleRecord where
  title : List Char
  intro : List Char
  sections : List (List Char)
  url : List Char
  fullText : List Char
deriving DecidableEq, Repr

/-- A successful Firecrawl scrape payload (`scrape_with_firecrawl`):
markdown plus metadata title. -/
structure FirecrawlDoc where
  markdown : List Char
  title : List Char
deriving DecidableEq, Repr

/-- SDK article object (`client.get_article` result). -/
structure SdkArticle where
  title : List Char
  summary : List Char
  tableOfContents : List (List Char)
  url : List Char
  fullContent : List Char
deriving DecidableEq, Repr

/-- SDK errors distinguished by `fetch_grokipedia_article`. -/
inductive SdkFetchErr
  | articleNotFound
  | requestError
  | otherExc
deriving DecidableEq, Repr

/-- Oracle for one `fetch_grokipedia_article` call. -/
structure GrokFetchOracle where
  /-- `scrape_with_firecrawl` outcome (`None` covers a missing API key,
  request failures and unsuccessful payloads). -/
  firecrawl : Option FirecrawlDoc
  sdkAvailable : Bool
  /-- `get_sdk_client()` raised. -/
  getClientRaises : Bool
  /-- `client.get_article(slug)` per slug. -/
  getArticle : List Char → Except SdkFetchErr SdkArticle
  /-- `client.find_slug(slug)`: resolution or `None`, or an exception. -/
  findSlug : List Char → Except PyErr (Option (List Char))
  /-- `client.close()` in the `finally` raises. -/
  closeRaises : Bool

/-- The SDK fallback path of `fetch_grokipedia_article` (lines 247-293),
before accounting for a `close()` exception. -/
def fetchGrokSdkCore (o : GrokFetchOracle) (url : String) : Option ArticleRecord :=
  if ¬ o.sdkAvailable then none
  else
    match pyUrlparse url.data with
    | .error _ => none
    | .ok r =>
      let slug := pyStripChar '/' (afterLastSub r.path "/page/".data)
      if slug = [] then none
      else if o.getClientRaises then none
      else
        -- inner try/finally: a raising `close()` replaces any result
        -- with an exception, which the outer handler turns into `None`
        let res :=
          match o.getArticle slug with
          | .ok a =>
            some { title := a.title, intro := a.summary,
                   sections := a.tableOfContents.take 5, url := a.url,
                   fullText := a.fullContent }
          | .error .articleNotFound =>
            match o.findSlug slug with
            | .error _ => none
            | .ok resolved =>
              match resolved with
              | some rs =>
                if rs ≠ [] ∧ rs ≠ slug then
                  match o.getArticle rs with
                  | .ok a =>
                    some { title := a.title, intro := a.summary,
                           sections := a.tableOfContents.take 5, url := a.url,
                           fullText := a.fullContent }
                  | .error _ => none
                else none
              | none => none
          | .error .requestError => none
          | .error .otherExc => none
        if o.closeRaises then none else res

/-- `article_fetcher.fetch_grokipedia_article` (lines 207-293): Firecrawl
first (sections are always empty on that path), then the SDK with one
fuzzy slug re-resolution; every failure becomes `None`, including a
`close()` exception in the `finally` (it replaces the return value and is
caught by the outer handler). -/
def fetch_grokipedia_article (o : GrokFetchOracle) (url : String) : Option ArticleRecord :=
  match o.firecrawl with
  | some doc =>
    if doc.markdown ≠ [] then
      let title := cleanGrokTitle doc.title
      let md := clean_firecrawl_markdown doc.markdown title
      some { title := title, intro := extractFirecrawlSummary md, sections := [],
             url := url.data, fullText := md }
    else fetchGrokSdkCore o url
  | none => fetchGrokSdkCore o url

/-- Oracle for the three Wikipedia API calls of `scrape_wikipedia`.  JSON
fields are pre-projected: `summaryTitle`/`summaryExtract` are the
`title`/`extract` fields of the summary response, `sectionsEntries` the
`line` fields of `parse.sections`, `extractsPages` the `extract` fields
of the `query.pages` values in iteration order. -/
structure WikiFetchOracle where
  summaryStatus : Nat
  summaryJsonOk : Bool
  summaryTitle : Option String
  summaryExtract : Option String
  sectionsOk : Bool
  sectionsJsonOk : Bool
  sectionsEntries : List (Option String)
  extractsOk : Bool
  extractsJsonOk : Bool
  extractsPages : List (Option String)

/-- Section headings excluded by `scrape_wikipedia` (line 173). -/
def excludedSections : List (List Char) :=
  ["references", "external links", "see also", "notes"].map String.data

/-- Section list built by `scrape_wikipedia` (lines 166-176): first ten
upstream sections, keeping truthy `line` fields not in the excluded set;
empty on a failed or unparsable response. -/
def buildWikiSections (o : WikiFetchOracle) : List (List Char) :=
  if o.sectionsOk ∧ o.sectionsJsonOk then
    (o.sectionsEntries.take 10).filterMap fun e =>
      match e with
      | some s =>
        if s.data ≠ [] ∧ ¬ (asciiLower s.data ∈ excludedSections) then some s.data
        else none
      | none => none
  else []

/-- Full-text extraction (lines 178-193): the `extract` of the first page
of a successful response, stripped; empty otherwise. -/
def buildWikiFullText (o : WikiFetchOracle) : List Char :=
  if o.extractsOk ∧ o.extractsJsonOk then
    match o.extractsPages with
    | first :: _ => pyStrip ((first.getD "").data)
    | [] => []
  else []

/-- `article_fetcher.scrape_wikipedia` (lines 140-204).  The
`extract_article_title` call can raise `ValueError` (only
`requests.RequestException` is caught), hence the `Except`; every HTTP
failure path returns `None`. -/
def scrape_wikipedia (o : WikiFetchOracle) (url : String) :
    Except PyErr (Option ArticleRecord) :=
  match extract_article_title url with
  | .error e => .error e
  | .ok none => .ok none
  | .ok (some t) =>
    if t = "" then .ok none
    else if o.summaryStatus = 404 then .ok none
    else if 400 ≤ o.summaryStatus ∧ o.summaryStatus < 600 then .ok none
    else if ¬ o.summaryJsonOk then .ok none
    else
      let fallbackTitle := t.data.map fun c => if c = '_' then ' ' else c
      let titleText :=
        match o.summaryTitle with
        | some s => if s.data ≠ [] then s.data else fallbackTitle
        | none => fallbackTitle
      .ok (some
        { title := titleText
          intro := pyStrip ((o.summaryExtract.getD "").data)
          sections := (buildWikiSections o).take 5
          url := url.data
          fullText := buildWikiFullText o })

/-! # Theorems

Helper lemmas first, then one theorem per claim (with witnesses and
counterexamples where the claim status requires them). -/

/-! ## List and string helper lemmas -/

theorem length_dropWhile_le (p : Char → Bool) (l : List Char) :
    (l.dropWhile p).length ≤ l.length := by
  induction l with
  | nil => simp [List.dropWhile]
  | cons a t ih =>
    simp only [List.dropWhile]
    split
    · exact Nat.le_succ_of_le ih
    · simp

theorem takeWhile_append_all {p : Char → Bool} {a : List Char} (b : List Char)
    (h : ∀ c ∈ a, p c = true) : (a ++ b).takeWhile p = a ++ b.takeWhile p := by
  induction a with
  | nil => simp
  | cons x t ih =>
    have hx : p x = true := h x (by simp)
    simp only [List.cons_append, List.takeWhile_cons, hx, if_true]
    rw [ih fun c hc => h c (by simp [hc])]

theorem dropWhile_append_all {p : Char → Bool} {a : List Char} (b : List Char)
    (h : ∀ c ∈ a, p c = true) : (a ++ b).dropWhile p = b.dropWhile p := by
  induction a with
  | nil => simp
  | cons x t ih =>
    have hx : p x = true := h x (by simp)
    simp only [List.cons_append, List.dropWhile_cons, hx, if_true]
    exact ih fun c hc => h c (by simp [hc])

theorem splitOnFirst_eq_none {sep : Char} {l : List Char}
    (h : ∀ c ∈ l, c ≠ sep) : splitOnFirst sep l = none := by
  induction l with
  | nil => rfl
  | cons x t ih =>
    have hx : x ≠ sep := h x (by simp)
    simp only [splitOnFirst, if_neg hx]
    rw [ih fun c hc => h c (by simp [hc])]

theorem isPrefixOf_append_self (a b : List Char) : a.isPrefixOf (a ++ b) = true := by
  induction a with
  | nil => cases b <;> rfl
  | cons x t ih => simpa [List.isPrefixOf] using ih

theorem mem_of_mem_dropWhile {p : Char → Bool} {c : Char} {l : List Char}
    (h : c ∈ l.dropWhile p) : c ∈ l := by
  induction l with
  | nil => simpa [List.dropWhile] using h
  | cons a t ih =>
    simp only [List.dropWhile_cons] at h
    split at h
    · exact List.mem_cons_of_mem a (ih h)
    · exact h

theorem mem_of_mem_takeWhile {p : Char → Bool} {c : Char} {l : List Char}
    (h : c ∈ l.takeWhile p) : c ∈ l := by
  induction l with
  | nil => simpa [List.takeWhile] using h
  | cons a t ih =>
    simp only [List.takeWhile_cons] at h
    split at h
    · rcases List.mem_cons.mp h with h | h
      · simp [h]
      · exact List.mem_cons_of_mem a (ih h)
    · simp at h

theorem takeWhile_prop {p : Char → Bool} {c : Char} {l : List Char}
    (h : c ∈ l.takeWhile p) : p c = true := by
  induction l with
  | nil => simpa [List.takeWhile] using h
  | cons a t ih =>
    simp only [List.takeWhile_cons] at h
    split at h
    · rcases List.mem_cons.mp h with h | h
      · subst h; assumption
      · exact ih h
    · simp at h

theorem mem_pyStripChar {ch c : Char} {l : List Char} (h : c ∈ pyStripChar ch l) :
    c ∈ l := by
  unfold pyStripChar at h
  have h1 := List.mem_reverse.mp h
  have h2 := mem_of_mem_dropWhile h1
  have h3 := List.mem_reverse.mp h2
  exact mem_of_mem_dropWhile h3

theorem dropWhile_eq_self_of_head {p : Char → Bool} {l : List Char}
    (h : ∀ hne : l ≠ [], p (l.head hne) = false) : l.dropWhile p = l := by
  cases l with
  | nil => rfl
  | cons a t =>
    have := h (by simp)
    simp only [List.head_cons] at this
    simp [List.dropWhile_cons, this]

/-! ## UTF-8 round-trip lemmas -/

theorem utf8EncodeChar_lt_256 {c : Char} {b : Nat} (h : b ∈ utf8EncodeChar c) :
    b < 256 := by
  have hv : c.toNat < 0xD800 ∨ (0xDFFF < c.toNat ∧ c.toNat < 0x110000) := c.valid
  by_cases h1 : c.toNat < 0x80
  · simp only [utf8EncodeChar, if_pos h1, List.mem_singleton] at h
    omega
  · by_cases h2 : c.toNat < 0x800
    · simp only [utf8EncodeChar, if_neg h1, if_pos h2, List.mem_cons,
        List.mem_singleton, List.not_mem_nil, or_false] at h
      rcases h with h | h <;> omega
    · by_cases h3 : c.toNat < 0x10000
      · simp only [utf8EncodeChar, if_neg h1, if_neg h2, if_pos h3, List.mem_cons,
          List.not_mem_nil, or_false] at h
        rcases h with h | h | h <;> omega
      · simp only [utf8EncodeChar, if_neg h1, if_neg h2, if_neg h3, List.mem_cons,
          List.not_mem_nil, or_false] at h
        rcases h with h | h | h | h <;> omega

theorem hexVal_hexChar {n : Nat} (h : n < 16) : hexVal (hexChar n) = n := by
  interval_cases n <;> decide

theorem isHexDigitChar_hexChar {n : Nat} (h : n < 16) :
    isHexDigitChar (hexChar n) = true := by
  interval_cases n <;> decide

theorem isQuoteSafe_hexChar {n : Nat} (h : n < 16) :
    isQuoteSafe (hexChar n) = true := by
  interval_cases n <;> decide

/-- Any fuel above the input length gives `utf8DecodeAux` the same value. -/
theorem utf8DecodeAux_irrel :
    ∀ (n : Nat) (l : List Nat) (m : Nat), l.length < n → l.length < m →
      utf8DecodeAux n l = utf8DecodeAux m l := by
  intro n
  induction n with
  | zero => intro l m h1 _; omega
  | succ k ih =>
    intro l m h1 h2
    obtain ⟨j, rfl⟩ : ∃ j, m = j + 1 := ⟨m - 1, by omega⟩
    cases l with
    | nil => rfl
    | cons b0 rest =>
      simp only [List.length_cons] at h1 h2
      rw [utf8DecodeAux.eq_def, utf8DecodeAux.eq_def]
      try simp only []
      by_cases c1 : b0 < 0x80
      · rw [if_pos c1, if_pos c1]
        exact congrArg _ (ih _ _ (by omega) (by omega))
      · by_cases c2 : b0 < 0xC2
        · rw [if_neg c1, if_neg c1, if_pos c2, if_pos c2]
          exact congrArg _ (ih _ _ (by omega) (by omega))
        · rw [if_neg c1, if_neg c1, if_neg c2, if_neg c2]
          cases rest with
          | nil => rfl
          | cons b1 r1 =>
            simp only []
            simp only [List.length_cons] at h1 h2
            by_cases c3 : b0 < 0xE0
            · rw [if_pos c3, if_pos c3]
              by_cases c4 : 0x80 ≤ b1 ∧ b1 < 0xC0
              · rw [if_pos c4, if_pos c4]
                exact congrArg _ (ih _ _ (by omega) (by omega))
              · rw [if_neg c4, if_neg c4]
                exact congrArg _ (ih _ _ (by simp; omega) (by simp; omega))
            · rw [if_neg c3, if_neg c3]
              by_cases c5 : b0 < 0xF0
              · rw [if_pos c5, if_pos c5]
                by_cases c6 : utf8Lo3 b0 ≤ b1 ∧ b1 < utf8Hi3 b0
                · rw [if_pos c6, if_pos c6]
                  cases r1 with
                  | nil => rfl
                  | cons b2 r2 =>
                    simp only []
                    simp only [List.length_cons] at h1 h2
                    by_cases c7 : 0x80 ≤ b2 ∧ b2 < 0xC0
                    · rw [if_pos c7, if_pos c7]
                      exact congrArg _ (ih _ _ (by omega) (by omega))
                    · rw [if_neg c7, if_neg c7]
                      exact congrArg _ (ih _ _ (by simp; omega) (by simp; omega))
                · rw [if_neg c6, if_neg c6]
                  exact congrArg _ (ih _ _ (by simp; omega) (by simp; omega))
              · by_cases c8 : b0 < 0xF5
                · rw [if_neg c5, if_neg c5, if_pos c8, if_pos c8]
                  by_cases c9 : utf8Lo4 b0 ≤ b1 ∧ b1 < utf8Hi4 b0
                  · rw [if_pos c9, if_pos c9]
                    cases r1 with
                    | nil => rfl
                    | cons b2 r2 =>
                      simp only []
                      simp only [List.length_cons] at h1 h2
                      by_cases c10 : 0x80 ≤ b2 ∧ b2 < 0xC0
                      · rw [if_pos c10, if_pos c10]
                        cases r2 with
                        | nil => rfl
                        | cons b3 r3 =>
                          simp only []
                          simp only [List.length_cons] at h1 h2
                          by_cases c11 : 0x80 ≤ b3 ∧ b3 < 0xC0
                          · rw [if_pos c11, if_pos c11]
                            exact congrArg _ (ih _ _ (by omega) (by omega))
                          · rw [if_neg c11, if_neg c11]
                            exact congrArg _ (ih _ _ (by simp; omega) (by simp; omega))
                      · rw [if_neg c10, if_neg c10]
                        exact congrArg _ (ih _ _ (by simp; omega) (by simp; omega))
                  · rw [if_neg c9, if_neg c9]
                    exact congrArg _ (ih _ _ (by simp; omega) (by simp; omega))
                · rw [if_neg c5, if_neg c5, if_neg c8, if_neg c8]
                  exact congrArg _ (ih _ _ (by simp; omega) (by simp; omega))

/-- Any fuel above the input length gives `pctAux` the same value. -/
theorem pctAux_irrel :
    ∀ (n : Nat) (l : List Char) (m : Nat), l.length < n → l.length < m →
      pctAux n l = pctAux m l := by
  intro n
  induction n with
  | zero => intro l m h1 _; omega
  | succ k ih =>
    intro l m h1 h2
    obtain ⟨j, rfl⟩ : ∃ j, m = j + 1 := ⟨m - 1, by omega⟩
    cases l with
    | nil => rfl
    | cons c t =>
      simp only [List.length_cons] at h1 h2
      rw [pctAux.eq_def, pctAux.eq_def]
      try simp only []
      by_cases hc : c = '%'
      · rw [if_pos hc, if_pos hc]
        cases t with
        | nil =>
          simp only []
          exact congrArg _ (ih _ _ (by simp; omega) (by simp; omega))
        | cons a t1 =>
          cases t1 with
          | nil =>
            simp only []
            simp only [List.length_cons] at h1 h2
            exact congrArg _ (ih _ _ (by simp; omega) (by simp; omega))
          | cons b t2 =>
            simp only []
            simp only [List.length_cons] at h1 h2
            by_cases hh : isHexDigitChar a ∧ isHexDigitChar b
            · rw [if_pos hh, if_pos hh]
              exact congrArg _ (ih _ _ (by omega) (by omega))
            · rw [if_neg hh, if_neg hh]
              exact congrArg _ (ih _ _ (by simp; omega) (by simp; omega))
      · rw [if_neg hc, if_neg hc]
        exact congrArg _ (ih _ _ (by omega) (by omega))

/-- Decoding after a one-byte (ASCII) sequence. -/
theorem utf8Decode_step1 (b0 : Nat) (r : List Nat) (h : b0 < 0x80) :
    utf8DecodeReplace (b0 :: r) = Char.ofNat b0 :: utf8DecodeReplace r := by
  simp only [utf8DecodeReplace, List.length_cons]
  rw [utf8DecodeAux.eq_def]
  try simp only []
  rw [if_pos h]

/-- Decoding after a valid two-byte sequence. -/
theorem utf8Decode_step2 (b0 b1 : Nat) (r : List Nat)
    (h0 : 0xC2 ≤ b0 ∧ b0 < 0xE0) (h1 : 0x80 ≤ b1 ∧ b1 < 0xC0) :
    utf8DecodeReplace (b0 :: b1 :: r) =
      Char.ofNat ((b0 - 0xC0) * 0x40 + (b1 - 0x80)) :: utf8DecodeReplace r := by
  simp only [utf8DecodeReplace, List.length_cons]
  rw [utf8DecodeAux.eq_def]
  try simp only []
  rw [if_neg (by omega), if_neg (by omega), if_pos (by omega), if_pos h1]
  exact congrArg _ (utf8DecodeAux_irrel _ _ _ (by omega) (by omega))

/-- Decoding after a valid three-byte sequence (continued). -/
theorem utf8Decode_step3 (b0 b1 b2 : Nat) (r : List Nat)
    (h0 : 0xE0 ≤ b0 ∧ b0 < 0xF0) (h1 : utf8Lo3 b0 ≤ b1 ∧ b1 < utf8Hi3 b0)
    (h2 : 0x80 ≤ b2 ∧ b2 < 0xC0) :
    utf8DecodeReplace (b0 :: b1 :: b2 :: r) =
      Char.ofNat ((b0 - 0xE0) * 0x1000 + (b1 - 0x80) * 0x40 + (b2 - 0x80)) ::
        utf8DecodeReplace r := by
  simp only [utf8DecodeReplace, List.length_cons]
  rw [utf8DecodeAux.eq_def]
  try simp only []
  rw [if_neg (by omega), if_neg (by omega), if_neg (by omega), if_pos (by omega),
      if_pos h1]
  try simp only []
  rw [if_pos h2]
  exact congrArg _ (utf8DecodeAux_irrel _ _ _ (by omega) (by omega))

/-- Decoding after a valid four-byte sequence. -/
theorem utf8Decode_step4 (b0 b1 b2 b3 : Nat) (r : List Nat)
    (h0 : 0xF0 ≤ b0 ∧ b0 < 0xF5) (h1 : utf8Lo4 b0 ≤ b1 ∧ b1 < utf8Hi4 b0)
    (h2 : 0x80 ≤ b2 ∧ b2 < 0xC0) (h3 : 0x80 ≤ b3 ∧ b3 < 0xC0) :
    utf8DecodeReplace (b0 :: b1 :: b2 :: b3 :: r) =
      Char.ofNat ((b0 - 0xF0) * 0x40000 + (b1 - 0x80) * 0x1000 +
        (b2 - 0x80) * 0x40 + (b3 - 0x80)) :: utf8DecodeReplace r := by
  simp only [utf8DecodeReplace, List.length_cons]
  rw [utf8DecodeAux.eq_def]
  try simp only []
  rw [if_neg (by omega), if_neg (by omega), if_neg (by omega), if_neg (by omega),
      if_pos (by omega), if_pos h1]
  try simp only []
  rw [if_pos h2]
  try simp only []
  rw [if_pos h3]
  exact congrArg _ (utf8DecodeAux_irrel _ _ _ (by omega) (by omega))

/-- One encoded character decodes back to itself in front of any tail. -/
theorem utf8_decode_encode_cons (c : Char) (r : List Nat) :
    utf8DecodeReplace (utf8EncodeChar c ++ r) = c :: utf8DecodeReplace r := by
  have hv : c.toNat < 0xD800 ∨ (0xDFFF < c.toNat ∧ c.toNat < 0x110000) := c.valid
  unfold utf8EncodeChar
  by_cases h1 : c.toNat < 0x80
  · rw [if_pos h1]
    simp only [List.cons_append, List.nil_append]
    rw [utf8Decode_step1 _ _ h1, Char.ofNat_toNat]
  · rw [if_neg h1]
    by_cases h2 : c.toNat < 0x800
    · rw [if_pos h2]
      simp only [List.cons_append, List.nil_append]
      rw [utf8Decode_step2 _ _ _ (by omega) (by omega)]
      have harg : (0xC0 + c.toNat / 0x40 - 0xC0) * 0x40 + (0x80 + c.toNat % 0x40 - 0x80) =
          c.toNat := by omega
      rw [harg, Char.ofNat_toNat]
    · rw [if_neg h2]
      by_cases h3 : c.toNat < 0x10000
      · rw [if_pos h3]
        simp only [List.cons_append, List.nil_append]
        have hlo : utf8Lo3 (0xE0 + c.toNat / 0x1000) ≤ 0x80 + c.toNat / 0x40 % 0x40 := by
          unfold utf8Lo3
          split <;> omega
        have hhi : 0x80 + c.toNat / 0x40 % 0x40 < utf8Hi3 (0xE0 + c.toNat / 0x1000) := by
          unfold utf8Hi3
          split <;> omega
        rw [utf8Decode_step3 _ _ _ _ (by omega) ⟨hlo, hhi⟩ (by omega)]
        have harg : (0xE0 + c.toNat / 0x1000 - 0xE0) * 0x1000 +
            (0x80 + c.toNat / 0x40 % 0x40 - 0x80) * 0x40 +
            (0x80 + c.toNat % 0x40 - 0x80) = c.toNat := by omega
        rw [harg, Char.ofNat_toNat]
      · rw [if_neg h3]
        simp only [List.cons_append, List.nil_append]
        have hlo : utf8Lo4 (0xF0 + c.toNat / 0x40000) ≤ 0x80 + c.toNat / 0x1000 % 0x40 := by
          unfold utf8Lo4
          split <;> omega
        have hhi : 0x80 + c.toNat / 0x1000 % 0x40 < utf8Hi4 (0xF0 + c.toNat / 0x40000) := by
          unfold utf8Hi4
          split <;> omega
        rw [utf8Decode_step4 _ _ _ _ _ (by omega) ⟨hlo, hhi⟩ (by omega) (by omega)]
        have harg : (0xF0 + c.toNat / 0x40000 - 0xF0) * 0x40000 +
            (0x80 + c.toNat / 0x1000 % 0x40 - 0x80) * 0x1000 +
            (0x80 + c.toNat / 0x40 % 0x40 - 0x80) * 0x40 +
            (0x80 + c.toNat % 0x40 - 0x80) = c.toNat := by omega
        rw [harg, Char.ofNat_toNat]

theorem utf8_decode_encode (s : List Char) :
    utf8DecodeReplace (utf8Encode s) = s := by
  induction s with
  | nil => rfl
  | cons c t ih =>
    unfold utf8Encode at ih ⊢
    simp only [List.flatMap_cons]
    rw [utf8_decode_encode_cons, ih]

/-! ## Quote/unquote round-trip -/

theorem isQuoteSafe_ascii {c : Char} (h : isQuoteSafe c = true) : c.toNat < 128 := by
  unfold isQuoteSafe isAsciiAlnum isAsciiAlpha isAsciiDigit at h
  simp only [Bool.or_eq_true, decide_eq_true_eq] at h
  rcases h with ((((h | h) | h) | h) | h) | h <;>
    first
    | omega
    | (subst h; decide)

theorem mem_pyQuote {c : Char} {s : List Char} (h : c ∈ pyQuote s) :
    isQuoteSafe c = true ∨ c = '%' ∨ isHexDigitChar c = true := by
  unfold pyQuote at h
  rw [List.mem_flatMap] at h
  obtain ⟨a, _, hmem⟩ := h
  by_cases hs : isQuoteSafe a
  · rw [if_pos hs, List.mem_singleton] at hmem
    subst hmem
    exact Or.inl hs
  · rw [if_neg hs, List.mem_flatMap] at hmem
    obtain ⟨b, hb, hcb⟩ := hmem
    have hb256 : b < 256 := utf8EncodeChar_lt_256 hb
    unfold pctEncodeByte at hcb
    rcases List.mem_cons.mp hcb with h1 | h1
    · exact Or.inr (Or.inl h1)
    rcases List.mem_cons.mp h1 with h2 | h2
    · subst h2
      exact Or.inr (Or.inr (isHexDigitChar_hexChar (by omega)))
    rcases List.mem_cons.mp h2 with h3 | h3
    · subst h3
      exact Or.inr (Or.inr (isHexDigitChar_hexChar (by omega)))
    · simp at h3

theorem isHexDigitChar_ascii {c : Char} (h : isHexDigitChar c = true) : c.toNat < 128 := by
  unfold isHexDigitChar isAsciiDigit at h
  simp only [Bool.or_eq_true, decide_eq_true_eq] at h
  rcases h with (h | h) | h <;> omega

theorem pyQuote_ascii {s : List Char} : ∀ c ∈ pyQuote s, isAsciiChar c = true := by
  intro c hc
  rcases mem_pyQuote hc with h | h | h
  · simpa [isAsciiChar] using isQuoteSafe_ascii h
  · subst h; decide
  · simpa [isAsciiChar] using isHexDigitChar_ascii h

theorem pctDecode_encodeByte (b : Nat) (hb : b < 256) (r : List Char) :
    pctDecodeBytes (pctEncodeByte b ++ r) = b :: pctDecodeBytes r := by
  unfold pctEncodeByte
  have hhi : isHexDigitChar (hexChar (b / 16)) = true := isHexDigitChar_hexChar (by omega)
  have hlo : isHexDigitChar (hexChar (b % 16)) = true := isHexDigitChar_hexChar (by omega)
  simp only [List.cons_append, List.nil_append]
  simp only [pctDecodeBytes, List.length_cons]
  rw [pctAux.eq_def]
  try simp only []
  try simp only [if_true]
  rw [if_pos ⟨hhi, hlo⟩, hexVal_hexChar (by omega), hexVal_hexChar (by omega)]
  rw [show 16 * (b / 16) + b % 16 = b by omega]
  exact congrArg _ (pctAux_irrel _ _ _ (by omega) (by omega))

theorem pctDecode_bytes_append (bs : List Nat) (hb : ∀ b ∈ bs, b < 256) (r : List Char) :
    pctDecodeBytes (bs.flatMap pctEncodeByte ++ r) = bs ++ pctDecodeBytes r := by
  induction bs with
  | nil => simp
  | cons b t ih =>
    simp only [List.flatMap_cons, List.append_assoc, List.cons_append]
    rw [pctDecode_encodeByte b (hb b (by simp)) _,
        ih fun x hx => hb x (by simp [hx])]

theorem pctDecode_safe_cons {c : Char} (hs : isQuoteSafe c = true) (r : List Char) :
    pctDecodeBytes (c :: r) = c.toNat :: pctDecodeBytes r := by
  have hne : c ≠ '%' := by
    intro h
    subst h
    simp [isQuoteSafe, isAsciiAlnum, isAsciiAlpha, isAsciiDigit] at hs
  simp only [pctDecodeBytes, List.length_cons]
  rw [pctAux.eq_def]
  try simp only []
  rw [if_neg hne]

theorem pctDecode_pyQuote (s : List Char) :
    pctDecodeBytes (pyQuote s) = utf8Encode s := by
  induction s with
  | nil => rfl
  | cons c t ih =>
    unfold pyQuote utf8Encode at *
    simp only [List.flatMap_cons]
    by_cases hs : isQuoteSafe c
    · rw [if_pos hs]
      have hascii : c.toNat < 0x80 := isQuoteSafe_ascii hs
      simp only [List.singleton_append]
      rw [pctDecode_safe_cons hs, ih]
      have : utf8EncodeChar c = [c.toNat] := by
        unfold utf8EncodeChar
        rw [if_pos hascii]
      rw [this]
      rfl
    · rw [if_neg hs]
      rw [pctDecode_bytes_append _ (fun b hb => utf8EncodeChar_lt_256 hb) _, ih]

theorem unquoteAux_all_ascii {l : List Char} (n : Nat) (hn : l.length < n)
    (h : ∀ c ∈ l, isAsciiChar c = true) :
    unquoteAux n l = utf8DecodeReplace (pctDecodeBytes l) := by
  cases n with
  | zero => omega
  | succ m =>
    cases l with
    | nil => rfl
    | cons c t =>
      have hm : 1 ≤ m := by
        simp only [List.length_cons] at hn
        omega
      obtain ⟨k, rfl⟩ : ∃ k, m = k + 1 := ⟨m - 1, by omega⟩
      show unquoteAux (k + 1 + 1) (c :: t) = _
      unfold unquoteAux
      rw [if_pos (h c (by simp))]
      have htake : (c :: t).takeWhile isAsciiChar = c :: t := by
        rw [List.takeWhile_eq_self_iff.mpr]
        intro x hx
        exact h x hx
      have hdrop : (c :: t).dropWhile isAsciiChar = [] := by
        rw [List.dropWhile_eq_nil_iff]
        intro x hx
        exact h x hx
      rw [htake, hdrop]
      show _ ++ unquoteAux (k + 1) [] = _
      rw [show unquoteAux (k + 1) [] = [] from rfl]
      simp

theorem unquote_all_ascii {l : List Char} (h : ∀ c ∈ l, isAsciiChar c = true) :
    unquoteList l = utf8DecodeReplace (pctDecodeBytes l) :=
  unquoteAux_all_ascii (l.length + 1) (by omega) h

/-- `unquote(quote(s, safe='-_')) == s` — the decode-encode round trip the
cross-source conversion relies on. -/
theorem unquote_pyQuote (s : List Char) : unquoteList (pyQuote s) = s := by
  rw [unquote_all_ascii pyQuote_ascii, pctDecode_pyQuote, utf8_decode_encode]

/-! ## Normal-form lemmas for `normalize_slug` -/

theorem dropWhile_cons_eq {p : Char → Bool} {l : List Char} {a : Char} {t : List Char}
    (h : l.dropWhile p = a :: t) : p a = false := by
  induction l with
  | nil => simp [List.dropWhile] at h
  | cons x xs ih =>
    by_cases hp : p x
    · rw [List.dropWhile_cons, if_pos hp] at h
      exact ih h
    · rw [List.dropWhile_cons, if_neg hp] at h
      injection h with h1 _
      subst h1
      simpa using hp

theorem dropWhile_idem (p : Char → Bool) (l : List Char) :
    (l.dropWhile p).dropWhile p = l.dropWhile p := by
  cases he : l.dropWhile p with
  | nil => simp [List.dropWhile]
  | cons a t =>
    have hfa : p a = false := dropWhile_cons_eq he
    simp [List.dropWhile_cons, hfa]

theorem dropWhile_cons_self {p : Char → Bool} {b : Char} {X : List Char}
    (h : List.dropWhile p (b :: X) = b :: X) : p b = false := by
  by_cases hp : p b
  · rw [List.dropWhile_cons, if_pos hp] at h
    have hle := length_dropWhile_le p X
    rw [h] at hle
    simp at hle
  · simpa using hp

/-- Right-trimming preserves a list whose left side is already trimmed:
its head still fails the predicate. -/
theorem dropWhile_trimRight (p : Char → Bool) (A : List Char)
    (hA : A.dropWhile p = A) :
    ((A.reverse.dropWhile p).reverse).dropWhile p = (A.reverse.dropWhile p).reverse := by
  cases hBe : (A.reverse.dropWhile p).reverse with
  | nil => simp [List.dropWhile]
  | cons b bt =>
    have hsplit : A.reverse.takeWhile p ++ A.reverse.dropWhile p = A.reverse :=
      List.takeWhile_append_dropWhile (p := p) (l := A.reverse)
    have hBC : (A.reverse.dropWhile p).reverse ++ (A.reverse.takeWhile p).reverse = A := by
      have h0 := congrArg List.reverse hsplit
      rw [List.reverse_append, List.reverse_reverse] at h0
      exact h0
    rw [hBe] at hBC
    have hAe : A = b :: (bt ++ (A.reverse.takeWhile p).reverse) := by
      conv_lhs => rw [← hBC]
      rfl
    have hA2 := hA
    rw [hAe] at hA2
    have hfb := dropWhile_cons_self hA2
    simp [List.dropWhile_cons, hfb]

theorem pyStripChar_idem (ch : Char) (l : List Char) :
    pyStripChar ch (pyStripChar ch l) = pyStripChar ch l := by
  show ((((((l.dropWhile (· = ch)).reverse.dropWhile (· = ch)).reverse).dropWhile
      (· = ch)).reverse.dropWhile (· = ch))).reverse =
    ((l.dropWhile (· = ch)).reverse.dropWhile (· = ch)).reverse
  rw [dropWhile_trimRight _ _ (dropWhile_idem _ l), List.reverse_reverse,
      dropWhile_idem]

theorem map_eq_self_of {f : Char → Char} {l : List Char}
    (h : ∀ c ∈ l, f c = c) : l.map f = l := by
  induction l with
  | nil => rfl
  | cons a t ih =>
    simp only [List.map_cons, h a (by simp), ih fun c hc => h c (by simp [hc])]

theorem mem_normalizeSlug {c : Char} {s : List Char} (h : c ∈ normalizeSlug s) :
    c ≠ '#' ∧ c ≠ ' ' := by
  unfold normalizeSlug at h
  have h1 := mem_pyStripChar h
  rw [List.mem_map] at h1
  obtain ⟨b, hb, hfb⟩ := h1
  have hbp : (decide (b ≠ '#') : Bool) = true := takeWhile_prop hb
  have hbne : b ≠ '#' := by simpa using hbp
  constructor
  · intro hc
    subst hc
    by_cases hsp : b = ' '
    · rw [if_pos hsp] at hfb
      exact absurd hfb (by decide)
    · rw [if_neg hsp] at hfb
      exact hbne hfb
  · intro hc
    subst hc
    by_cases hsp : b = ' '
    · rw [if_pos hsp] at hfb
      exact absurd hfb (by decide)
    · rw [if_neg hsp] at hfb
      exact hsp hfb

theorem pyStripChar_normalizeSlug (s : List Char) :
    pyStripChar '/' (normalizeSlug s) = normalizeSlug s := by
  unfold normalizeSlug
  exact pyStripChar_idem '/' _

/-- A normalised slug re-normalises to itself after quoting: the heart of
the cross-source round trip. -/
theorem normalizeSlug_pyQuote_normalizeSlug (s : List Char) :
    normalizeSlug (pyQuote (normalizeSlug s)) = normalizeSlug s := by
  have htake : (normalizeSlug s).takeWhile (· ≠ '#') = normalizeSlug s := by
    rw [List.takeWhile_eq_self_iff.mpr]
    intro x hx
    simpa using (mem_normalizeSlug hx).1
  have hmap : (normalizeSlug s).map (fun c => if c = ' ' then '_' else c) = normalizeSlug s := by
    apply map_eq_self_of
    intro c hc
    rw [if_neg (mem_normalizeSlug hc).2]
  calc normalizeSlug (pyQuote (normalizeSlug s))
      = pyStripChar '/' (((unquoteList (pyQuote (normalizeSlug s))).takeWhile
          (· ≠ '#')).map fun c => if c = ' ' then '_' else c) := rfl
    _ = pyStripChar '/' (((normalizeSlug s).takeWhile (· ≠ '#')).map
          fun c => if c = ' ' then '_' else c) := by rw [unquote_pyQuote]
    _ = pyStripChar '/' ((normalizeSlug s).map fun c => if c = ' ' then '_' else c) := by
          rw [htake]
    _ = pyStripChar '/' (normalizeSlug s) := by rw [hmap]
    _ = normalizeSlug s := pyStripChar_normalizeSlug s

/-! ## Parsing the composed target URLs -/

theorem splitOnFirst_append_sep {sep : Char} {a : List Char} (b : List Char)
    (h : ∀ c ∈ a, c ≠ sep) : splitOnFirst sep (a ++ sep :: b) = some (a, b) := by
  induction a with
  | nil => simp [splitOnFirst]
  | cons x t ih =>
    have hx : x ≠ sep := h x (by simp)
    simp only [List.cons_append, splitOnFirst, if_neg hx]
    rw [show List.append t (sep :: b) = t ++ sep :: b from rfl]
    rw [ih fun c hc => h c (by simp [hc])]

/-- Characters emitted by `quote` are never URL delimiters: they are safe
characters, `%`, or hex digits. -/
theorem pyQuote_ne {t : List Char} {d : Char} (h1 : isQuoteSafe d = false)
    (h2 : d ≠ '%') (h3 : isHexDigitChar d = false) : ∀ c ∈ pyQuote t, c ≠ d := by
  intro c hc heq
  subst heq
  rcases mem_pyQuote hc with h | h | h
  · rw [h1] at h
    cases h
  · exact h2 h
  · rw [h3] at h
    cases h

/-- `urlsplit` of `https://<host>/<path...>` for a clean ASCII host (no
brackets or delimiters) and a path free of `?`, `#` and the stripped
control characters. -/
theorem pyUrlsplit_https (host path : List Char)
    (hhost : ∀ c ∈ host,
      c ≠ '\t' ∧ c ≠ '\r' ∧ c ≠ '\n' ∧ c ≠ '/' ∧ c ≠ '?' ∧ c ≠ '#' ∧ c ≠ '[' ∧ c ≠ ']' ∧
        32 < c.toNat)
    (hpath : ∀ c ∈ path, c ≠ '\t' ∧ c ≠ '\r' ∧ c ≠ '\n' ∧ c ≠ '?' ∧ c ≠ '#') :
    pyUrlsplit ("https://".data ++ host ++ '/' :: path) =
      .ok ⟨"https".data, host, '/' :: path, [], []⟩ := by
  have hsan : sanitizeUrl ("https://".data ++ host ++ '/' :: path) =
      "https://".data ++ host ++ '/' :: path := by
    unfold sanitizeUrl
    rw [show ("https://".data ++ host ++ '/' :: path) =
      'h' :: ("ttps://".data ++ host ++ '/' :: path) from rfl]
    rw [List.dropWhile_cons, if_neg (by decide)]
    rw [List.filter_eq_self.mpr]
    intro c hc
    rw [show ('h' :: ("ttps://".data ++ host ++ '/' :: path)) =
      ("https://".data ++ host) ++ '/' :: path from rfl] at hc
    rcases List.mem_append.mp hc with hc | hc
    · rcases List.mem_append.mp hc with hc | hc
      · have hc2 : c ∈ ['h', 't', 't', 'p', 's', ':', '/', '/'] := hc
        fin_cases hc2 <;> decide
      · obtain ⟨ht, hr, hn, _⟩ := hhost c hc
        simp [ht, hr, hn]
    · rcases List.mem_cons.mp hc with hc | hc
      · subst hc
        decide
      · obtain ⟨ht, hr, hn, _⟩ := hpath c hc
        simp [ht, hr, hn]
  have hsch : splitOnFirst ':' ("https://".data ++ host ++ '/' :: path) =
      some ("https".data, "//".data ++ host ++ '/' :: path) := by
    rw [show ("https://".data ++ host ++ '/' :: path) =
      "https".data ++ ':' :: ("//".data ++ host ++ '/' :: path) from rfl]
    exact splitOnFirst_append_sep _ (by decide)
  have hnetp : ∀ c ∈ host, (fun c => ¬ (c = '/' ∨ c = '?' ∨ c = '#') : Char → Bool) c = true := by
    intro c hc
    obtain ⟨_, _, _, hs, hq, hh, _⟩ := hhost c hc
    simp [hs, hq, hh]
  unfold pyUrlsplit
  rw [hsan]
  unfold urlsplitScheme
  rw [hsch]
  simp only []
  rw [if_pos (by refine ⟨by decide, by decide, by decide⟩)]
  rw [show asciiLower "https".data = "https".data from by decide]
  unfold urlsplitNetloc
  rw [if_pos (by
    rw [show ("//".data ++ host ++ '/' :: path) = "//".data ++ (host ++ '/' :: path) from by
      simp [List.append_assoc]]
    exact isPrefixOf_append_self _ _)]
  have hdrop2 : ("//".data ++ host ++ '/' :: path).drop 2 = host ++ '/' :: path := by
    rw [show ("//".data ++ host ++ '/' :: path) =
      '/' :: '/' :: (host ++ '/' :: path) from by simp [List.append_assoc]]
    rfl
  rw [hdrop2]
  have htw : (host ++ '/' :: path).takeWhile
      (fun c => ¬ (c = '/' ∨ c = '?' ∨ c = '#') : Char → Bool) = host := by
    rw [takeWhile_append_all _ hnetp, List.takeWhile_cons, if_neg (by decide)]
    simp
  have hdw : (host ++ '/' :: path).dropWhile
      (fun c => ¬ (c = '/' ∨ c = '?' ∨ c = '#') : Char → Bool) = '/' :: path := by
    rw [dropWhile_append_all _ hnetp, List.dropWhile_cons, if_neg (by decide)]
  rw [htw, hdw]
  unfold urlsplitBrackets
  have hbr1 : ¬ (('[' ∈ host ∧ ¬ (']' ∈ host)) ∨ (']' ∈ host ∧ ¬ ('[' ∈ host))) := by
    rintro (⟨hmem, _⟩ | ⟨hmem, _⟩)
    · exact (hhost _ hmem).2.2.2.2.2.2.1 rfl
    · exact (hhost _ hmem).2.2.2.2.2.2.2.1 rfl
  have hbr2 : ¬ ('[' ∈ host ∧ ']' ∈ host) := by
    rintro ⟨hmem, _⟩
    exact (hhost _ hmem).2.2.2.2.2.2.1 rfl
  rw [if_neg hbr1, if_neg hbr2]
  unfold urlsplitFragment
  have hfrag : splitOnFirst '#' ('/' :: path) = none := by
    apply splitOnFirst_eq_none
    intro c hc
    rcases List.mem_cons.mp hc with hc | hc
    · subst hc
      decide
    · exact (hpath c hc).2.2.2.2
  have hq : splitOnFirst '?' ('/' :: path) = none := by
    apply splitOnFirst_eq_none
    intro c hc
    rcases List.mem_cons.mp hc with hc | hc
    · subst hc
      decide
    · exact (hpath c hc).2.2.2.1
  rw [hfrag]
  unfold urlsplitQuery
  rw [hq]

theorem firstOccIdx_append_self (pat q : List Char) :
    firstOccIdx (pat ++ q) pat = some 0 := by
  unfold firstOccIdx
  rw [if_pos (isPrefixOf_append_self _ _)]

theorem containsSub_append_self (pat q : List Char) :
    containsSub (pat ++ q) pat = true := by
  unfold containsSub
  rw [firstOccIdx_append_self]
  rfl

theorem splitOnceLast_append_self (pat q : List Char) :
    splitOnceLast (pat ++ q) pat = q := by
  unfold splitOnceLast
  rw [firstOccIdx_append_self]
  simp only [Nat.zero_add]
  exact List.drop_left _ _

/-- The path characters produced by `quote` avoid every delimiter the
parser splits on. -/
theorem pyQuote_pathOk (t : List Char) :
    ∀ c ∈ pyQuote t, c ≠ '\t' ∧ c ≠ '\r' ∧ c ≠ '\n' ∧ c ≠ '?' ∧ c ≠ '#' :=
  fun c hc =>
    ⟨pyQuote_ne (by decide) (by decide) (by decide) c hc,
     pyQuote_ne (by decide) (by decide) (by decide) c hc,
     pyQuote_ne (by decide) (by decide) (by decide) c hc,
     pyQuote_ne (by decide) (by decide) (by decide) c hc,
     pyQuote_ne (by decide) (by decide) (by decide) c hc⟩

/-- `urlparse` of the composed Grokipedia target URL. -/
theorem pyUrlparse_grok_template (t : List Char) :
    pyUrlparse ("https://grokipedia.com/page/".data ++ pyQuote t) =
      .ok ⟨"https".data, "grokipedia.com".data, "/page/".data ++ pyQuote t, [], []⟩ := by
  have hq := pyQuote_pathOk t
  have hsplit := pyUrlsplit_https "grokipedia.com".data ("page/".data ++ pyQuote t)
    (by
      intro c hc
      have hc2 : c ∈ ['g', 'r', 'o', 'k', 'i', 'p', 'e', 'd', 'i', 'a', '.', 'c', 'o', 'm'] := hc
      fin_cases hc2 <;> decide)
    (by
      intro c hc
      rcases List.mem_append.mp hc with hc | hc
      · have hc2 : c ∈ ['p', 'a', 'g', 'e', '/'] := hc
        fin_cases hc2 <;> decide
      · obtain ⟨h1, h2, h3, h4, h5⟩ := hq c hc
        exact ⟨h1, h2, h3, h4, h5⟩)
  rw [show "https://".data ++ "grokipedia.com".data ++ '/' :: ("page/".data ++ pyQuote t) =
    "https://grokipedia.com/page/".data ++ pyQuote t from rfl] at hsplit
  unfold pyUrlparse
  rw [hsplit]
  show Except.ok _ = _
  have hparams : splitParams ('/' :: ("page/".data ++ pyQuote t)) =
      '/' :: ("page/".data ++ pyQuote t) := by
    unfold splitParams
    rw [if_neg (by
      intro hmem
      rw [show ('/' :: ("page/".data ++ pyQuote t)) = "/page/".data ++ pyQuote t from rfl]
        at hmem
      rcases List.mem_append.mp hmem with hm | hm
      · exact absurd hm (by decide)
      · exact pyQuote_ne (d := ';') (by decide) (by decide) (by decide) _ hm rfl)]
  rw [show ('/' :: ("page/".data ++ pyQuote t)) = "/page/".data ++ pyQuote t from rfl] at hparams
  simp only []
  rw [show splitParams ('/' :: ("page/".data ++ pyQuote t)) =
    "/page/".data ++ pyQuote t from hparams]

/-- `urlparse` of the composed Wikipedia target URL. -/
theorem pyUrlparse_wiki_template (t : List Char) :
    pyUrlparse ("https://en.wikipedia.org/wiki/".data ++ pyQuote t) =
      .ok ⟨"https".data, "en.wikipedia.org".data, "/wiki/".data ++ pyQuote t, [], []⟩ := by
  have hq := pyQuote_pathOk t
  have hsplit := pyUrlsplit_https "en.wikipedia.org".data ("wiki/".data ++ pyQuote t)
    (by
      intro c hc
      have hc2 : c ∈ ['e', 'n', '.', 'w', 'i', 'k', 'i', 'p', 'e', 'd', 'i', 'a', '.', 'o',
        'r', 'g'] := hc
      fin_cases hc2 <;> decide)
    (by
      intro c hc
      rcases List.mem_append.mp hc with hc | hc
      · have hc2 : c ∈ ['w', 'i', 'k', 'i', '/'] := hc
        fin_cases hc2 <;> decide
      · obtain ⟨h1, h2, h3, h4, h5⟩ := hq c hc
        exact ⟨h1, h2, h3, h4, h5⟩)
  rw [show "https://".data ++ "en.wikipedia.org".data ++ '/' :: ("wiki/".data ++ pyQuote t) =
    "https://en.wikipedia.org/wiki/".data ++ pyQuote t from rfl] at hsplit
  unfold pyUrlparse
  rw [hsplit]
  show Except.ok _ = _
  have hparams : splitParams ('/' :: ("wiki/".data ++ pyQuote t)) =
      '/' :: ("wiki/".data ++ pyQuote t) := by
    unfold splitParams
    rw [if_neg (by
      intro hmem
      rw [show ('/' :: ("wiki/".data ++ pyQuote t)) = "/wiki/".data ++ pyQuote t from rfl]
        at hmem
      rcases List.mem_append.mp hmem with hm | hm
      · exact absurd hm (by decide)
      · exact pyQuote_ne (d := ';') (by decide) (by decide) (by decide) _ hm rfl)]
  rw [show ('/' :: ("wiki/".data ++ pyQuote t)) = "/wiki/".data ++ pyQuote t from rfl] at hparams
  simp only []
  rw [show splitParams ('/' :: ("wiki/".data ++ pyQuote t)) =
    "/wiki/".data ++ pyQuote t from hparams]

/-- Extracting from the composed Grokipedia URL re-normalises the quoted
slug. -/
theorem extract_grok_template (t : List Char) :
    extract_article_title ⟨"https://grokipedia.com/page/".data ++ pyQuote t⟩ =
      .ok (some ⟨normalizeSlug (pyQuote t)⟩) := by
  unfold extract_article_title
  rw [show (String.mk ("https://grokipedia.com/page/".data ++ pyQuote t)).data =
    "https://grokipedia.com/page/".data ++ pyQuote t from rfl]
  rw [pyUrlparse_grok_template]
  simp only []
  rw [show asciiLower "grokipedia.com".data = "grokipedia.com".data from by decide]
  rw [if_pos (by decide)]
  rw [if_pos (containsSub_append_self "/page/".data (pyQuote t))]
  rw [splitOnceLast_append_self]

/-- Extracting from the composed Wikipedia URL re-normalises the quoted
slug. -/
theorem extract_wiki_template (t : List Char) :
    extract_article_title ⟨"https://en.wikipedia.org/wiki/".data ++ pyQuote t⟩ =
      .ok (some ⟨normalizeSlug (pyQuote t)⟩) := by
  unfold extract_article_title
  rw [show (String.mk ("https://en.wikipedia.org/wiki/".data ++ pyQuote t)).data =
    "https://en.wikipedia.org/wiki/".data ++ pyQuote t from rfl]
  rw [pyUrlparse_wiki_template]
  simp only []
  rw [show asciiLower "en.wikipedia.org".data = "en.wikipedia.org".data from by decide]
  rw [if_neg (by decide), if_pos (by decide)]
  rw [if_pos (containsSub_append_self "/wiki/".data (pyQuote t))]
  rw [splitOnceLast_append_self]

/-- Every slug `extract_article_title` returns successfully is the
normalisation of some raw string. -/
theorem extract_shape (url : String) (s : String)
    (h : extract_article_title url = .ok (some s)) :
    ∃ raw, s = ⟨normalizeSlug raw⟩ := by
  unfold extract_article_title at h
  cases hp : pyUrlparse url.data with
  | error e =>
    rw [hp] at h
    simp at h
  | ok r =>
    rw [hp] at h
    simp only [] at h
    split at h
    · split at h
      · simp only [Except.ok.injEq, Option.some.injEq] at h
        exact ⟨_, h.symm⟩
      · simp at h
    · split at h
      · split at h
        · simp only [Except.ok.injEq, Option.some.injEq] at h
          exact ⟨_, h.symm⟩
        · split at h
          · split at h
            · split at h
              · simp at h
              · simp only [Except.ok.injEq, Option.some.injEq] at h
                exact ⟨_, h.symm⟩
            · simp at h
          · simp at h
      · simp at h

/-! ## Strip-function normal forms (for the title coercion) -/

theorem startsWithHash_false {c : Char} (hc : c ≠ '#') (l : List Char) :
    startsWithHash (c :: l) = false := by
  unfold startsWithHash
  split
  · rename_i h
    injection h with h1 _
    exact absurd h1 hc
  · rfl

theorem pyRStrip_prefix (l : List Char) : pyRStrip l <+: l := by
  unfold pyRStrip
  have h := List.dropWhile_suffix (l := l.reverse) isPySpace
  exact List.reverse_suffix.mp (by simpa using h)

theorem pyRStrip_append (A C : List Char) (h : pyRStrip C ≠ []) :
    pyRStrip (A ++ C) = A ++ pyRStrip C := by
  unfold pyRStrip at *
  rw [List.reverse_append, List.dropWhile_append]
  rw [if_neg]
  · rw [List.reverse_append, List.reverse_reverse]
  · intro he
    rw [List.isEmpty_iff] at he
    rw [he] at h
    simp at h

theorem pyRStrip_eq_nil_iff (l : List Char) :
    pyRStrip l = [] ↔ ∀ c ∈ l, isPySpace c := by
  unfold pyRStrip
  rw [List.reverse_eq_nil_iff, List.dropWhile_eq_nil_iff]
  simp

theorem pyStrip_eq_nil_iff (l : List Char) :
    pyStrip l = [] ↔ ∀ c ∈ l, isPySpace c := by
  unfold pyStrip
  rw [pyRStrip_eq_nil_iff]
  constructor
  · intro h c hc
    have hsplit := List.takeWhile_append_dropWhile isPySpace l
    rw [← hsplit] at hc
    rcases List.mem_append.mp hc with h1 | h1
    · exact takeWhile_prop h1
    · exact h c h1
  · intro h c hc
    exact h c (mem_of_mem_dropWhile hc)

/-- The stripped string keeps the first non-space character as its head. -/
theorem pyStrip_head (l : List Char) (h : pyStrip l ≠ []) :
    ∃ d t t', pyLStrip l = d :: t ∧ pyStrip l = d :: t' ∧ isPySpace d = false := by
  cases he : pyLStrip l with
  | nil =>
    unfold pyStrip at h
    rw [he] at h
    simp [pyRStrip] at h
  | cons d t =>
    have hd : isPySpace d = false := dropWhile_cons_eq he
    have hpre : pyStrip l <+: d :: t := by
      unfold pyStrip
      rw [he]
      exact pyRStrip_prefix _
    cases hs : pyStrip l with
    | nil => exact absurd hs h
    | cons x t' =>
      rw [hs] at hpre
      rw [List.cons_prefix_cons] at hpre
      exact ⟨d, t, t', rfl, by rw [hpre.1], hd⟩

theorem startsWithHash_pyStrip (l : List Char) (h : pyStrip l ≠ []) :
    startsWithHash (pyStrip l) = startsWithHash (pyLStrip l) := by
  obtain ⟨d, t, t', he, hs, _⟩ := pyStrip_head l h
  rw [he, hs]
  by_cases hd : d = '#'
  · subst hd
    rfl
  · rw [startsWithHash_false hd, startsWithHash_false hd]

theorem pyLStrip_pyStrip (l : List Char) (h : pyStrip l ≠ []) :
    pyLStrip (pyStrip l) = pyStrip l := by
  obtain ⟨d, t, t', _, hs, hd⟩ := pyStrip_head l h
  rw [hs]
  unfold pyLStrip
  rw [List.dropWhile_cons, if_neg (by simp [hd])]

theorem pyRStrip_ne_nil_of_strip (l : List Char) (h : pyStrip l ≠ []) :
    pyRStrip l ≠ [] := by
  intro he
  exact h ((pyStrip_eq_nil_iff l).mpr ((pyRStrip_eq_nil_iff l).mp he))

/-- Stripping a string that starts with `#` only right-strips the tail. -/
theorem pyStrip_hash (M C : List Char) (hC : pyRStrip C ≠ []) :
    pyStrip ('#' :: (M ++ C)) = '#' :: (M ++ pyRStrip C) := by
  unfold pyStrip pyLStrip
  rw [List.dropWhile_cons, if_neg (by decide)]
  rw [show ('#' :: (M ++ C)) = ('#' :: M) ++ C from by simp,
      pyRStrip_append ('#' :: M) C hC]
  simp

/-! ## The merge loop of `/search` -/

theorem mergeLoop_spec (limit : Int) :
    ∀ (fz slugs : List String),
      slugs <+: mergeLoop limit slugs fz ∧
      (slugs.Nodup → (mergeLoop limit slugs fz).Nodup) ∧
      ((slugs.length : Int) ≤ limit → ((mergeLoop limit slugs fz).length : Int) ≤ limit) ∧
      (∀ s ∈ mergeLoop limit slugs fz, s ∉ slugs → s ∈ fz) := by
  intro fz
  induction fz with
  | nil =>
    intro slugs
    refine ⟨List.prefix_refl _, fun h => h, fun h => h, ?_⟩
    intro s hs hns
    exact absurd hs hns
  | cons f fs ih =>
    intro slugs
    by_cases hc : f ∉ slugs ∧ (slugs.length : Int) < limit
    · have hstep : mergeLoop limit slugs (f :: fs) = mergeLoop limit (slugs ++ [f]) fs := by
        simp only [mergeLoop, if_pos hc]
      obtain ⟨hpre, hnd, hlen, hmem⟩ := ih (slugs ++ [f])
      rw [hstep]
      refine ⟨List.IsPrefix.trans ⟨[f], rfl⟩ hpre, ?_, ?_, ?_⟩
      · intro hnds
        exact hnd (by simp [List.nodup_append, hnds, hc.1])
      · intro hle
        exact hlen (by simp; omega)
      · intro s hs hns
        by_cases hsl : s ∈ slugs ++ [f]
        · rcases List.mem_append.mp hsl with h1 | h1
          · exact absurd h1 hns
          · simp at h1
            simp [h1]
        · exact List.mem_cons_of_mem _ (hmem s hs hsl)
    · have hstep : mergeLoop limit slugs (f :: fs) = mergeLoop limit slugs fs := by
        simp only [mergeLoop, if_neg hc]
      obtain ⟨hpre, hnd, hlen, hmem⟩ := ih slugs
      rw [hstep]
      exact ⟨hpre, hnd, hlen, fun s hs hns => List.mem_cons_of_mem _ (hmem s hs hns)⟩

theorem searchMerge_length (limit : Int) (ex fz : List String)
    (h : (ex.length : Int) ≤ limit) :
    ((searchMerge limit ex fz).length : Int) ≤ limit := by
  unfold searchMerge
  split
  · exact (mergeLoop_spec limit fz ex).2.2.1 h
  · exact h

/-! ## Exception-freedom of `urlsplit` on bracket-free input -/

theorem splitOnFirst_eq {sep : Char} :
    ∀ {l a b : List Char}, splitOnFirst sep l = some (a, b) → l = a ++ sep :: b := by
  intro l
  induction l with
  | nil =>
    intro a b h
    simp [splitOnFirst] at h
  | cons c t ih =>
    intro a b h
    rw [splitOnFirst] at h
    by_cases hc : c = sep
    · rw [if_pos hc] at h
      injection h with h1
      injection h1 with ha hb
      subst hc
      rw [← ha, ← hb]
      rfl
    · rw [if_neg hc] at h
      cases hs : splitOnFirst sep t with
      | none =>
        rw [hs] at h
        exact absurd h (by simp)
      | some p =>
        obtain ⟨a', b'⟩ := p
        rw [hs] at h
        injection h with h1
        injection h1 with ha hb
        rw [← ha, ← hb, List.cons_append]
        rw [ih hs]

theorem urlsplitFragment_ok (s n u : List Char) :
    ∃ r, urlsplitFragment s n u = .ok r := by
  unfold urlsplitFragment urlsplitQuery
  split
  · split
    · exact ⟨_, rfl⟩
    · exact ⟨_, rfl⟩
  · split
    · exact ⟨_, rfl⟩
    · exact ⟨_, rfl⟩

theorem urlsplitBrackets_ok (s n u : List Char) (h : '[' ∉ n ∧ ']' ∉ n) :
    ∃ r, urlsplitBrackets s n u = .ok r := by
  unfold urlsplitBrackets
  rw [if_neg (by simp [h.1, h.2]), if_neg (by simp [h.1])]
  exact urlsplitFragment_ok s n u

theorem urlsplitNetloc_ok (s u2 : List Char) (h : '[' ∉ u2 ∧ ']' ∉ u2) :
    ∃ r, urlsplitNetloc s u2 = .ok r := by
  unfold urlsplitNetloc
  split
  · refine urlsplitBrackets_ok _ _ _ ⟨?_, ?_⟩
    · intro hm
      exact h.1 (List.mem_of_mem_drop (mem_of_mem_takeWhile hm))
    · intro hm
      exact h.2 (List.mem_of_mem_drop (mem_of_mem_takeWhile hm))
  · exact urlsplitBrackets_ok _ _ _ ⟨by simp, by simp⟩

theorem urlsplitScheme_ok (u1 : List Char) (h : '[' ∉ u1 ∧ ']' ∉ u1) :
    ∃ r, urlsplitScheme u1 = .ok r := by
  unfold urlsplitScheme
  cases hs : splitOnFirst ':' u1 with
  | none => exact urlsplitNetloc_ok _ _ h
  | some p =>
    obtain ⟨before, after⟩ := p
    have heq := splitOnFirst_eq hs
    have hafter : '[' ∉ after ∧ ']' ∉ after := by
      constructor
      · intro hm
        exact h.1 (by rw [heq]; simp [hm])
      · intro hm
        exact h.2 (by rw [heq]; simp [hm])
    simp only []
    split
    · exact urlsplitNetloc_ok _ _ hafter
    · exact urlsplitNetloc_ok _ _ h

theorem pyUrlsplit_ok (url0 : List Char) (h : '[' ∉ url0 ∧ ']' ∉ url0) :
    ∃ r, pyUrlsplit url0 = .ok r := by
  unfold pyUrlsplit
  refine urlsplitScheme_ok _ ⟨?_, ?_⟩
  · intro hm
    exact h.1 (mem_of_mem_dropWhile (List.mem_of_mem_filter hm))
  · intro hm
    exact h.2 (mem_of_mem_dropWhile (List.mem_of_mem_filter hm))

theorem pyUrlparse_ok (url0 : List Char) (h : '[' ∉ url0 ∧ ']' ∉ url0) :
    ∃ r, pyUrlparse url0 = .ok r := by
  obtain ⟨r, hr⟩ := pyUrlsplit_ok url0 h
  exact ⟨_, by unfold pyUrlparse; rw [hr]; rfl⟩

/-! ## Suffix subsumption for `detect_source` -/

theorem wikipedia_suffix_subsumes {h : List Char}
    (hm : "m.wikipedia.org".data.isSuffixOf h = true) :
    "wikipedia.org".data.isSuffixOf h = true := by
  rw [List.isSuffixOf_iff_suffix] at hm ⊢
  exact List.IsSuffix.trans (by decide) hm

/-- C2: round-trip stability.  For every URL from which a slug can be
extracted and converted, extracting from the converted URL yields the same
decoded, underscore-normalised slug as the first extraction. -/
theorem c2_convert_roundtrip (url u2 s : String)
    (hconv : convert_to_other_source url = .ok (some u2))
    (hext : extract_article_title url = .ok (some s)) :
    extract_article_title u2 = .ok (some s) := by
  obtain ⟨raw, hs⟩ := extract_shape url s hext
  unfold convert_to_other_source at hconv
  rw [hext] at hconv
  simp only [] at hconv
  split at hconv
  · simp at hconv
  · cases hp : pyUrlparse url.data with
    | error e =>
      rw [hp] at hconv
      simp at hconv
    | ok r =>
      rw [hp] at hconv
      simp only [] at hconv
      split at hconv
      · simp only [Except.ok.injEq, Option.some.injEq] at hconv
        rw [← hconv, extract_wiki_template s.data, hs]
        rw [show (String.mk (normalizeSlug raw)).data = normalizeSlug raw from rfl]
        rw [normalizeSlug_pyQuote_normalizeSlug]
      · split at hconv
        · simp only [Except.ok.injEq, Option.some.injEq] at hconv
          rw [← hconv, extract_grok_template s.data, hs]
          rw [show (String.mk (normalizeSlug raw)).data = normalizeSlug raw from rfl]
          rw [normalizeSlug_pyQuote_normalizeSlug]
        · simp at hconv

/-- Witness for C2 at the spec's own example URL. -/
theorem c2_convert_roundtrip_witness :
    convert_to_other_source "https://en.wikipedia.org/wiki/Comcast" =
      .ok (some "https://grokipedia.com/page/Comcast") ∧
    extract_article_title "https://en.wikipedia.org/wiki/Comcast" = .ok (some "Comcast") ∧
    extract_article_title "https://grokipedia.com/page/Comcast" = .ok (some "Comcast") :=
  ⟨by decide, by decide,
   c2_convert_roundtrip "https://en.wikipedia.org/wiki/Comcast"
     "https://grokipedia.com/page/Comcast" "Comcast" (by decide) (by decide)⟩

/-- C3 (amended): `detect_source` classifies by a plain string-suffix test
(`str.endswith`) on the lower-cased host, with no domain-label boundary:
the answer is `grokipedia` exactly when the host ends in the fourteen
characters `grokipedia.com`, otherwise `wikipedia` exactly when it ends in
`wikipedia.org` (the separate `m.wikipedia.org` test is subsumed), and
`None` exactly when it ends in neither. -/
theorem c3_detect_source_suffix (url : String) :
    (detect_source url = some .grokipedia ↔
      "grokipedia.com".data.isSuffixOf (hostOf url) = true) ∧
    (detect_source url = some .wikipedia ↔
      ("grokipedia.com".data.isSuffixOf (hostOf url) = false ∧
       "wikipedia.org".data.isSuffixOf (hostOf url) = true)) ∧
    (detect_source url = none ↔
      ("grokipedia.com".data.isSuffixOf (hostOf url) = false ∧
       "wikipedia.org".data.isSuffixOf (hostOf url) = false)) := by
  by_cases hg : "grokipedia.com".data.isSuffixOf (hostOf url) = true
  · simp [detect_source, hg]
  · rw [Bool.not_eq_true] at hg
    by_cases hw : "wikipedia.org".data.isSuffixOf (hostOf url) = true
    · simp [detect_source, hg, hw]
    · rw [Bool.not_eq_true] at hw
      have hm : "m.wikipedia.org".data.isSuffixOf (hostOf url) = false := by
        cases hmm : "m.wikipedia.org".data.isSuffixOf (hostOf url) with
        | false => rfl
        | true => rw [wikipedia_suffix_subsumes hmm] at hw; exact hw
      simp [detect_source, hg, hw, hm]

theorem c3_detect_source_suffix_witness :
    detect_source "https://en.m.wikipedia.org/wiki/Cat" = some Source.wikipedia :=
  (c3_detect_source_suffix "https://en.m.wikipedia.org/wiki/Cat").2.1.mpr (by decide)

/-- C3 counterexample to the frozen claim: the host `notgrokipedia.com`
does not end at a domain-label boundary of `grokipedia.com`, yet
`detect_source` classifies it as Grokipedia, because `str.endswith`
performs a plain suffix match. -/
theorem c3_detect_source_counterexample :
    detect_source "https://notgrokipedia.com/page/Python" = some Source.grokipedia := by
  decide

/-- C4 (amended): `detect_source` is total (its `urlparse` call sits in a
`try/except` that falls back to the raw string), but `extract_article_title`
has no handler and propagates the `ValueError` that `urlsplit` raises for
an invalid bracketed authority — and, on non-ASCII authorities, from the
NFKC-based `_checknetloc` validation (e.g. `https://℀`).  The embedding
models `_checknetloc` as accepting, which is faithful exactly on ASCII
input, where CPython's check returns early (`netloc.isascii()`); the
ASCII hypothesis below scopes the theorem to that faithful domain and is
therefore not consumed by the proof.  On every all-ASCII input that
contains no square bracket the function terminates normally with an `Ok`
result. -/
theorem c4_no_exception_ascii_bracket_free (url : String)
    (_hascii : ∀ c ∈ url.data, isAsciiChar c = true)
    (h : '[' ∉ url.data ∧ ']' ∉ url.data) :
    ∃ v, extract_article_title url = .ok v := by
  obtain ⟨r, hr⟩ := pyUrlparse_ok url.data h
  unfold extract_article_title
  rw [hr]
  simp only []
  split
  · split
    · exact ⟨_, rfl⟩
    · exact ⟨_, rfl⟩
  · split
    · split
      · exact ⟨_, rfl⟩
      · split
        · split
          · split
            · exact ⟨_, rfl⟩
            · exact ⟨_, rfl⟩
          · exact ⟨_, rfl⟩
        · exact ⟨_, rfl⟩
    · exact ⟨_, rfl⟩

theorem c4_no_exception_ascii_bracket_free_witness :
    (∀ c ∈ "https://grokipedia.com/page/Python".data, isAsciiChar c = true) ∧
    ('[' ∉ "https://grokipedia.com/page/Python".data ∧
     ']' ∉ "https://grokipedia.com/page/Python".data) ∧
    ∃ v, extract_article_title "https://grokipedia.com/page/Python" = .ok v :=
  ⟨by decide, by decide,
   c4_no_exception_ascii_bracket_free "https://grokipedia.com/page/Python"
     (by decide) (by decide)⟩

/-- C4 counterexample to the frozen claim: on the malformed URL
`https://[` the function raises `ValueError` (from `urlsplit`'s bracket
validation) instead of returning `None`. -/
theorem c4_extract_raises_counterexample :
    extract_article_title "https://[" = .error PyErr.valueError := by
  decide

/-- C5: when the exact results fall short of the limit and are themselves
duplicate-free, the merged candidate list keeps the exact slugs as a
prefix in order, stays duplicate-free, never exceeds the limit, and every
added entry comes from the fuzzy results. -/
theorem c5_search_merge (limit : Int) (ex fz : List String)
    (hnd : ex.Nodup) (hlt : (ex.length : Int) < limit) :
    ex <+: searchMerge limit ex fz ∧
    (searchMerge limit ex fz).Nodup ∧
    ((searchMerge limit ex fz).length : Int) ≤ limit ∧
    ∀ s ∈ searchMerge limit ex fz, s ∉ ex → s ∈ fz := by
  unfold searchMerge
  rw [if_pos hlt]
  obtain ⟨hpre, hnrec, hlen, hmem⟩ := mergeLoop_spec limit fz ex
  exact ⟨hpre, hnrec hnd, hlen (le_of_lt hlt), hmem⟩

theorem c5_search_merge_witness :
    (["a"] : List String).Nodup ∧ ((["a"] : List String).length : Int) < 3 ∧
    (["a"] <+: searchMerge 3 ["a"] ["b", "a", "c", "d"] ∧
     (searchMerge 3 ["a"] ["b", "a", "c", "d"]).Nodup ∧
     ((searchMerge 3 ["a"] ["b", "a", "c", "d"]).length : Int) ≤ 3 ∧
     ∀ s ∈ searchMerge 3 ["a"] ["b", "a", "c", "d"], s ∉ (["a"] : List String) →
       s ∈ (["b", "a", "c", "d"] : List String)) :=
  ⟨by decide, by decide, c5_search_merge 3 ["a"] ["b", "a", "c", "d"] (by decide) (by decide)⟩

/-- C6: the local slug resolver is total (every failure of the index
lookup yields `None`, never an exception), a client acquired is always
closed again, and a successful resolution implies both a successful
lookup and a successful close. -/
theorem c6_resolver_safety (b : SdkBehavior) (raw : String) :
    (SdkEvent.acquired ∈ (resolve_local_slug_if_available b raw).2 →
      SdkEvent.closed ∈ (resolve_local_slug_if_available b raw).2) ∧
    (∀ e, b.getClient = .error e → (resolve_local_slug_if_available b raw).1 = none) ∧
    (∀ e, b.findSlug = .error e → (resolve_local_slug_if_available b raw).1 = none) ∧
    (∀ e, b.close = .error e → (resolve_local_slug_if_available b raw).1 = none) ∧
    (∀ s, (resolve_local_slug_if_available b raw).1 = some s →
      b.findSlug = .ok (some s) ∧ b.close = .ok ()) := by
  by_cases h1 : raw = "" <;>
    by_cases h2 : b.isAvailable = true <;>
      cases hg : b.getClient <;>
        cases hf : b.findSlug <;>
          cases hc : b.close <;>
            simp_all [resolve_local_slug_if_available]

/-- C1 (amended): when the primary (xAI) provider answers HTTP 429 and
both provider keys are configured, the orchestrator does NOT fail fast: the
non-200 fallback test precedes the 429 test, so a request IS issued to the
fallback (OpenRouter) provider, and `XAIRateLimitError` is raised only
when the final — fallback — response itself has status 429, with the
`Retry-After` hint taken from that final response. -/
theorem c1_rate_limit_fallback_order (env : ProviderEnv)
    (respond : Provider → ChatResponse) (article : GrokArticleData)
    (hx : env.xaiKey = true) (ho : env.openrouterKey = true)
    (hbody : buildArticleBody article ≠ [])
    (h429 : (respond Provider.xai).status = 429) :
    (generate_edit_suggestions env respond article).2 =
      [Provider.xai, Provider.openrouter] ∧
    ((generate_edit_suggestions env respond article).1 =
        .error (.rateLimited (parseRetryAfter (respond Provider.openrouter).retryAfter)) ↔
      (respond Provider.openrouter).status = 429) := by
  by_cases hst : (respond Provider.openrouter).status = 429
  · simp [generate_edit_suggestions, hx, ho, hbody, h429, hst]
  · by_cases hs2 : 400 ≤ (respond Provider.openrouter).status ∧
        (respond Provider.openrouter).status < 600
    · simp [generate_edit_suggestions, hx, ho, hbody, h429, hst, hs2]
    · cases hct : (respond Provider.openrouter).content with
      | none => simp [generate_edit_suggestions, hx, ho, hbody, h429, hst, hs2, hct]
      | some c =>
        by_cases hce : c.data = []
        · simp [generate_edit_suggestions, hx, ho, hbody, h429, hst, hs2, hct, hce]
        · simp [generate_edit_suggestions, hx, ho, hbody, h429, hst, hs2, hct, hce]

theorem c1_rate_limit_fallback_order_witness :
    (generate_edit_suggestions ⟨true, true⟩
      (fun p => match p with
        | .xai => ⟨429, some "30", none⟩
        | .openrouter => ⟨429, some "7", none⟩)
      ⟨some "Some article text.", none, none⟩).2 =
        [Provider.xai, Provider.openrouter] ∧
    ((generate_edit_suggestions ⟨true, true⟩
      (fun p => match p with
        | .xai => ⟨429, some "30", none⟩
        | .openrouter => ⟨429, some "7", none⟩)
      ⟨some "Some article text.", none, none⟩).1 =
        .error (.rateLimited (parseRetryAfter
          ((fun p => match p with
            | Provider.xai => (⟨429, some "30", none⟩ : ChatResponse)
            | Provider.openrouter => ⟨429, some "7", none⟩) Provider.openrouter).retryAfter)) ↔
      ((fun p => match p with
        | Provider.xai => (⟨429, some "30", none⟩ : ChatResponse)
        | Provider.openrouter => ⟨429, some "7", none⟩) Provider.openrouter).status = 429) :=
  c1_rate_limit_fallback_order ⟨true, true⟩
    (fun p => match p with
      | .xai => ⟨429, some "30", none⟩
      | .openrouter => ⟨429, some "7", none⟩)
    ⟨some "Some article text.", none, none⟩ rfl rfl (by decide) (by decide)

/-- C1 counterexample to the frozen claim: with both keys configured and
the primary provider rate-limited (HTTP 429), the orchestrator silently
retries on the fallback provider and returns its text — the request trace
contains the fallback provider and no `RateLimited` result is produced. -/
theorem c1_rate_limit_counterexample :
    generate_edit_suggestions ⟨true, true⟩
      (fun p => match p with
        | .xai => ⟨429, some "30", none⟩
        | .openrouter => ⟨200, none, some "Suggested edits."⟩)
      ⟨some "Some article text.", none, none⟩ =
      (.ok "Suggested edits.", [Provider.xai, Provider.openrouter]) := by
  decide

/-- C7: for a generated text that is non-blank after stripping and a
non-empty title, each of the three coercion sites prepends the heading
`# <title>\n\n` exactly once when the text does not already start with a
heading marker, and otherwise returns the text unmodified up to whitespace
trimming. -/
theorem c7_title_coercion (title content : List Char)
    (ht : title ≠ []) (hc : pyStrip content ≠ []) :
    (startsWithHash (pyLStrip content) = false →
      coerceTitleXai title content =
        some ("# ".data ++ title ++ "\n\n".data ++ pyRStrip content) ∧
      coerceTitleOpenrouter title content =
        "# ".data ++ title ++ "\n\n".data ++ pyStrip content ∧
      coerceTitleBiography title content =
        some ("# ".data ++ title ++ "\n\n".data ++ pyRStrip content)) ∧
    (startsWithHash (pyLStrip content) = true →
      coerceTitleXai title content = some (pyStrip content) ∧
      coerceTitleOpenrouter title content = pyStrip content ∧
      coerceTitleBiography title content = some (pyStrip content)) := by
  have hcne : content ≠ [] := by
    intro he
    rw [he] at hc
    exact hc rfl
  have hr : pyRStrip content ≠ [] := pyRStrip_ne_nil_of_strip content hc
  have hassoc : "# ".data ++ title ++ "\n\n".data ++ content =
      '#' :: ((' ' :: (title ++ "\n\n".data)) ++ content) := by
    rw [show "# ".data = '#' :: [' '] from rfl]
    simp
  have hx : pyStrip ("# ".data ++ title ++ "\n\n".data ++ content) =
      "# ".data ++ title ++ "\n\n".data ++ pyRStrip content := by
    rw [hassoc, pyStrip_hash _ _ hr]
    rw [show "# ".data = '#' :: [' '] from rfl]
    simp
  have hlift : startsWithHash (pyLStrip (pyStrip content)) =
      startsWithHash (pyLStrip content) := by
    rw [pyLStrip_pyStrip content hc, startsWithHash_pyStrip content hc]
  constructor
  · intro hnh
    refine ⟨?_, ?_, ?_⟩
    · unfold coerceTitleXai
      rw [if_pos ⟨ht, hcne, by simp [hnh]⟩, hx]
    · unfold coerceTitleOpenrouter
      simp only []
      rw [if_pos ⟨ht, by simp [hlift, hnh]⟩]
    · unfold coerceTitleBiography
      rw [if_pos hcne, if_pos (by simp [hnh]), hx]
  · intro hyes
    refine ⟨?_, ?_, ?_⟩
    · unfold coerceTitleXai
      rw [if_neg (by simp [hyes]), if_pos hcne]
    · unfold coerceTitleOpenrouter
      simp only []
      rw [if_neg (by simp [hlift, hyes])]
    · unfold coerceTitleBiography
      rw [if_pos hcne, if_neg (by simp [hyes])]

theorem c7_title_coercion_witness :
    ("T".data ≠ ([] : List Char)) ∧ pyStrip "  body  ".data ≠ [] ∧
    (startsWithHash (pyLStrip "  body  ".data) = false →
      coerceTitleXai "T".data "  body  ".data =
        some ("# ".data ++ "T".data ++ "\n\n".data ++ pyRStrip "  body  ".data) ∧
      coerceTitleOpenrouter "T".data "  body  ".data =
        "# ".data ++ "T".data ++ "\n\n".data ++ pyStrip "  body  ".data ∧
      coerceTitleBiography "T".data "  body  ".data =
        some ("# ".data ++ "T".data ++ "\n\n".data ++ pyRStrip "  body  ".data)) :=
  ⟨by decide, by decide,
   (c7_title_coercion "T".data "  body  ".data (by decide) (by decide)).1⟩

theorem c6_resolver_safety_witness :
    (resolve_local_slug_if_available
        ⟨true, .ok (), .ok (some "Cat"), .ok ()⟩ "cat").1 = some "Cat" ∧
    ((resolve_local_slug_if_available
        ⟨true, .ok (), .ok (some "Cat"), .ok ()⟩ "cat").1 = some "Cat" →
      SdkBehavior.findSlug ⟨true, .ok (), .ok (some "Cat"), .ok ()⟩ = .ok (some "Cat") ∧
      SdkBehavior.close ⟨true, .ok (), .ok (some "Cat"), .ok ()⟩ = .ok ()) :=
  ⟨by decide,
   (c6_resolver_safety ⟨true, .ok (), .ok (some "Cat"), .ok ()⟩ "cat").2.2.2.2 "Cat"⟩

theorem fetchGrokSdkCore_sections (o : GrokFetchOracle) (url : String) (r : ArticleRecord)
    (h : fetchGrokSdkCore o url = some r) : r.sections.length ≤ 5 := by
  simp only [fetchGrokSdkCore] at h
  repeat' split at h
  all_goals
    first
      | exact Option.noConfusion h
      | (injection h with h1; rw [← h1]; simpa using List.length_take_le 5 _)

/-- C8: every article record a content acquirer returns carries at most
five section titles, whatever the upstream source reports (`[:5]` on the
SDK table of contents, `[]` on the Firecrawl path, `[:5]` on the Wikipedia
section list). -/
theorem c8_sections_bounded (og : GrokFetchOracle) (ow : WikiFetchOracle)
    (url : String) (r : ArticleRecord) :
    (fetch_grokipedia_article og url = some r → r.sections.length ≤ 5) ∧
    (scrape_wikipedia ow url = .ok (some r) → r.sections.length ≤ 5) := by
  constructor
  · intro h
    unfold fetch_grokipedia_article at h
    split at h
    · split at h
      · injection h with h1
        rw [← h1]
        simp
      · exact fetchGrokSdkCore_sections og url r h
    · exact fetchGrokSdkCore_sections og url r h
  · intro h
    simp only [scrape_wikipedia] at h
    repeat' split at h
    all_goals
      first
        | exact Except.noConfusion h
        | (injection h with h1;
           first
             | exact Option.noConfusion h1
             | (injection h1 with h2; rw [← h2]; simpa using List.length_take_le 5 _))

theorem c8_sections_bounded_witness :
    (fetch_grokipedia_article
        ⟨some ⟨"Some text.".data, "T".data⟩, false, false,
         fun _ => .error .articleNotFound, fun _ => .ok none, false⟩ "u" =
      some ⟨"T".data, [], [], "u".data, "Some text.".data⟩ ∧
     (ArticleRecord.sections ⟨"T".data, [], [], "u".data, "Some text.".data⟩).length ≤ 5) ∧
    (scrape_wikipedia
        ⟨200, true, some "T", some "I", true, true,
         [some "A", some "B", some "C", some "D", some "E", some "F", some "G"],
         true, true, [some "full"]⟩ "https://en.wikipedia.org/wiki/Cat" =
      .ok (some ⟨"T".data, "I".data, ["A".data, "B".data, "C".data, "D".data, "E".data],
        "https://en.wikipedia.org/wiki/Cat".data, "full".data⟩) ∧
     (ArticleRecord.sections ⟨"T".data, "I".data,
        ["A".data, "B".data, "C".data, "D".data, "E".data],
        "https://en.wikipedia.org/wiki/Cat".data, "full".data⟩).length ≤ 5) :=
  ⟨⟨by decide,
    (c8_sections_bounded
      ⟨some ⟨"Some text.".data, "T".data⟩, false, false,
       fun _ => .error .articleNotFound, fun _ => .ok none, false⟩
      ⟨200, true, some "T", some "I", true, true,
       [some "A", some "B", some "C", some "D", some "E", some "F", some "G"],
       true, true, [some "full"]⟩ "u"
      ⟨"T".data, [], [], "u".data, "Some text.".data⟩).1 (by decide)⟩,
   ⟨by decide,
    (c8_sections_bounded
      ⟨some ⟨"Some text.".data, "T".data⟩, false, false,
       fun _ => .error .articleNotFound, fun _ => .ok none, false⟩
      ⟨200, true, some "T", some "I", true, true,
       [some "A", some "B", some "C", some "D", some "E", some "F", some "G"],
       true, true, [some "full"]⟩ "https://en.wikipedia.org/wiki/Cat"
      ⟨"T".data, "I".data, ["A".data, "B".data, "C".data, "D".data, "E".data],
       "https://en.wikipedia.org/wiki/Cat".data, "full".data⟩).2 (by decide)⟩⟩

/-- C9: when exactly one of the two article fetches succeeds, `/compare`
still answers with a success payload carrying the fetched article, a
`null` comparison and a `comparison_error` message naming the missing
side, instead of failing the request. -/
theorem c9_partial_results {α : Type} (d : CompareDeps α) (url other : String)
    (hconv : convert_to_other_source url = .ok (some other)) :
    (∀ wa, d.fetchGrok url = none → d.scrapeWiki other = some wa →
       compareCore d url .grokipedia = .success
         ⟨none, some wa, url, other, none, some (some "Grokipedia article not found")⟩) ∧
    (∀ ga, d.fetchGrok url = some ga → d.scrapeWiki other = none →
       compareCore d url .grokipedia = .success
         ⟨some ga, none, url, other, none, some (some "Wikipedia article not found")⟩) ∧
    (∀ wa, d.fetchGrok other = none → d.scrapeWiki url = some wa →
       compareCore d url .wikipedia = .success
         ⟨none, some wa, other, url, none, some (some "Grokipedia article not found")⟩) ∧
    (∀ ga, d.fetchGrok other = some ga → d.scrapeWiki url = none →
       compareCore d url .wikipedia = .success
         ⟨some ga, none, other, url, none, some (some "Wikipedia article not found")⟩) := by
  refine ⟨?_, ?_, ?_, ?_⟩ <;>
    · intro a h1 h2
      simp [compareCore, hconv, h1, h2, missingMessage, String.intercalate]
      rfl

theorem c9_partial_results_witness :
    convert_to_other_source "https://grokipedia.com/page/Cat" =
      .ok (some "https://en.wikipedia.org/wiki/Cat") ∧
    compareCore
      (⟨fun _ => none, fun _ => none, fun _ => some 7, fun _ _ => none,
        fun _ => none, fun _ => none, fun a _ => a, fun a _ => a⟩ : CompareDeps Nat)
      "https://grokipedia.com/page/Cat" .grokipedia = .success
        ⟨none, some 7, "https://grokipedia.com/page/Cat",
         "https://en.wikipedia.org/wiki/Cat", none,
         some (some "Grokipedia article not found")⟩ :=
  ⟨by decide,
   (c9_partial_results
     (⟨fun _ => none, fun _ => none, fun _ => some 7, fun _ _ => none,
       fun _ => none, fun _ => none, fun a _ => a, fun a _ => a⟩ : CompareDeps Nat)
     "https://grokipedia.com/page/Cat" "https://en.wikipedia.org/wiki/Cat"
     (by decide)).1 7 rfl rfl⟩

/-- C10: the `/search` result limit is clamped — a missing or unparsable
`limit` parameter yields 10, a parsed value is capped at 100 — a blank
query returns an empty success result, and (for an SDK whose search
operations respect a non-negative requested limit) the returned result
list never exceeds the effective limit. -/
theorem c10_search_limit (sdk : SearchSdk) (qParam limitParam : Option String)
    (rs : List SearchResult)
    (hla : ∀ q l, 0 ≤ l → ((sdk.listAvailable q l).length : Int) ≤ l)
    (hex : ∀ q l, 0 ≤ l → ((sdk.searchExact q l).length : Int) ≤ l)
    (h0 : 0 ≤ effectiveLimit limitParam) :
    (effectiveLimit none = 10) ∧
    (∀ s, pyParseInt s.data = none → effectiveLimit (some s) = 10) ∧
    (∀ s v, pyParseInt s.data = some v → effectiveLimit (some s) = min v 100) ∧
    (effectiveLimit limitParam ≤ 100) ∧
    (pyStrip ((qParam.getD "").data) = [] →
      search_articles sdk qParam limitParam = .ok (.results [])) ∧
    (search_articles sdk qParam limitParam = .ok (.results rs) →
      (rs.length : Int) ≤ effectiveLimit limitParam) := by
  refine ⟨rfl, ?_, ?_, ?_, ?_, ?_⟩
  · intro s hs
    simp [effectiveLimit, hs]
  · intro s v hv
    simp [effectiveLimit, hv]
  · unfold effectiveLimit
    split
    · omega
    · split
      · exact min_le_right _ _
      · omega
  · intro hq
    simp only [search_articles]
    rw [if_pos hq]
  · intro h
    simp only [search_articles] at h
    split at h
    · simp only [Except.ok.injEq, SearchResponse.results.injEq] at h
      rw [← h]
      simpa using h0
    · split at h
      · exact absurd h (by simp)
      · split at h
        · exact absurd h (by simp)
        · split at h
          · exact absurd h (by simp)
          · simp only [Except.ok.injEq, SearchResponse.results.injEq] at h
            rw [← h, List.length_map]
            split
            · exact hla _ _ h0
            · exact searchMerge_length _ _ _ (hex _ _ h0)

theorem c10_search_limit_witness :
    search_articles
      ⟨true, true, fun _ _ => [], fun _ _ => [], fun _ _ => ["b"]⟩
      (some "abc") (some "250") =
      .ok (.results [⟨"b", "b", "https://grokipedia.com/page/b"⟩]) ∧
    (([(⟨"b", "b", "https://grokipedia.com/page/b"⟩ : SearchResult)].length : Int) ≤
      effectiveLimit (some "250")) :=
  ⟨by decide,
   (c10_search_limit ⟨true, true, fun _ _ => [], fun _ _ => [], fun _ _ => ["b"]⟩
     (some "abc") (some "250") [⟨"b", "b", "https://grokipedia.com/page/b"⟩]
     (fun q l hl => by simpa using hl) (fun q l hl => by simpa using hl)
     (by decide)).2.2.2.2.2 (by decide)⟩

end Grokipedia
